import Mathlib

/-!
Verification development for the sample-report build pipeline
(`build/build-sample-reports.js` plus the PSI client helpers appended to it).

The JavaScript is shallowly embedded:
* JS objects whose string keys are looked up become association lists
  (`List (String × α)`); lookup is first-match, as JS keys are unique.
* fallible code (a JS `TypeError` or a `throw`) becomes `Option` / `Except`;
* the file-system side effects of the synthetic error-path builder become an
  explicit `FsState` record threaded through the function;
* reference semantics (in-place mutation, deep copies) are modelled a second
  time by an explicit heap of numbered objects, used for the frame/aliasing
  claims.
-/

set_option maxHeartbeats 1000000
set_option maxRecDepth 100000

/-! ## Generic association-list helpers (JS object semantics) -/

/-- First-match lookup in an association list, the semantics of reading a
property of a JS object (`obj[k]`, `undefined` becoming `none`). -/
def jget {κ α : Type} [DecidableEq κ] : List (κ × α) → κ → Option α
  | [], _ => none
  | (k', v) :: rest, k => if k' = k then some v else jget rest k

/-- Overwrite the value stored at a key, keeping the entry order.  Models a JS
property write `obj[k] = v` when the key is already present. -/
def jset {κ α : Type} [DecidableEq κ] (l : List (κ × α)) (k : κ) (v : α) : List (κ × α) :=
  l.map (fun kv => if kv.1 = k then (k, v) else kv)

/-- JS property write `obj[k] = v`: overwrite in place when the key exists,
otherwise append the new entry at the end (JS insertion order). -/
def jsetOrAppend {κ α : Type} [DecidableEq κ] (l : List (κ × α)) (k : κ) (v : α) :
    List (κ × α) :=
  if l.any (fun kv => kv.1 = k) then jset l k v else l ++ [(k, v)]

/-! ## String helpers

All string routines are written over `List Char` by structural recursion so
that every proof obligation can be discharged by kernel evaluation. -/

/-- Replace the first occurrence of `pat` (JS `String.prototype.replace` with a
string pattern replaces only the first occurrence). -/
def replaceFirstList (pat rep : List Char) : List Char → List Char
  | [] => []
  | c :: rest =>
    if pat.isPrefixOf (c :: rest) then rep ++ (c :: rest).drop pat.length
    else c :: replaceFirstList pat rep rest

/-- JS `haystack.replace(pat, rep)` for string patterns: first occurrence only. -/
def jsReplaceFirst (s pat rep : String) : String :=
  String.mk (replaceFirstList pat.data rep.data s.data)

/-- Substring occurrence test over character lists. -/
def containsSubList (pat : List Char) : List Char → Bool
  | [] => pat.isEmpty
  | c :: rest => pat.isPrefixOf (c :: rest) || containsSubList pat rest

/-- JS `s.includes(pat)`. -/
def jsIncludes (s pat : String) : Bool := containsSubList pat.data s.data

/-- JS `s.endsWith(post)`. -/
def strEndsWith (s post : String) : Bool := post.data.isSuffixOf s.data

/-- Join a list of strings with a separator. -/
def joinWith (sep : String) : List String → String
  | [] => ""
  | [x] => x
  | x :: y :: rest => x ++ sep ++ joinWith sep (y :: rest)

/-! ## The Result data model (`LH.Result`)

Only the fields this program reads are modelled; the remaining fields of a
Result are carried by none of the functions under study and are dropped. -/

/-- An audit `details` payload: the tagged variant discriminated by `type`.
Only the `screenshot` variant's `data` member is ever read by this program. -/
structure Details where
  type : String
  data : String
deriving DecidableEq

/-- An entry of the `audits` mapping of a Result. -/
structure Audit where
  score : Option ℚ
  scoreDisplayMode : String
  warnings : List String
  errorMessage : Option String
  details : Option Details
deriving DecidableEq

/-- An element of a category's ordered `auditRefs` list; the program only ever
reads the `id` field of a raw audit reference. -/
structure AuditRef where
  id : String
deriving DecidableEq

/-- An entry of the `categories` mapping of a Result. -/
structure Category where
  id : String
  title : String
  score : Option ℚ
  auditRefs : List AuditRef
deriving DecidableEq

/-- The canonical Result document (`LH.Result`), restricted to the two
mappings this pipeline reads and edits. -/
structure LHR where
  categories : List (String × Category)
  audits : List (String × Audit)
deriving DecidableEq

/-! ## `tweakLhrForPsi` (single-category trim) -/

/-- `tweakLhrForPsi` from `build/build-sample-reports.js`:

```js
const clone = JSON.parse(JSON.stringify(lhr));
clone.categories = {'performance': clone.categories.performance};
delete clone.audits['performance-budget'];
clone.categories.performance.auditRefs =
  clone.categories.performance.auditRefs.filter(audit => {
    return !audit.id.endsWith('-budget');
  });
return clone;
```

When the input has no `performance` category, `clone.categories.performance`
is `undefined` and the `auditRefs` access on the last statement throws a
`TypeError`, modelled as `none`.  (The `delete` on `audits` happens before the
throw, but the exception discards the clone, so the net observable behaviour
is just the thrown error.)  Values are immutable in Lean, so the JSON
round-trip deep copy is the identity at this value level; the heap model below
treats the copy explicitly. -/
def tweakLhrForPsi (lhr : LHR) : Option LHR :=
  match jget lhr.categories "performance" with
  | none => none
  | some perf =>
    some { categories := [("performance",
             { perf with auditRefs :=
                 perf.auditRefs.filter (fun audit => !(strEndsWith audit.id "-budget")) })],
           audits := lhr.audits.filter (fun kv => kv.1 != "performance-budget") }

/-! ## `addPluginCategory` -/

/-- The demo plugin category object installed by `addPluginCategory`. -/
def pluginCategory : Category :=
  { id := "lighthouse-plugin-someplugin", title := "Plugin", score := some (1/2),
    auditRefs := [] }

/-- Value-level effect of `addPluginCategory(lhr)`: the input Result's
`categories` gains the `lighthouse-plugin-someplugin` entry.  In JS this is an
in-place mutation of the caller's object; the in-place aspect is proved on the
heap model (`addPluginCategoryH`). -/
def addPluginCategory (lhr : LHR) : LHR :=
  { lhr with categories :=
      jsetOrAppend lhr.categories "lighthouse-plugin-someplugin" pluginCategory }

/-! ## PSI report generation (`generatePsiReportHtml`) -/

/-- Serialize an optional score (`0`–`1` rational or `null`). -/
def serializeScore : Option ℚ → String
  | none => "null"
  | some q => toString q.num ++ "/" ++ toString q.den

/-- Serialize one audit reference. -/
def serializeAuditRef (r : AuditRef) : String := "(id=" ++ r.id ++ ")"

/-- Serialize one category. -/
def serializeCategory (c : Category) : String :=
  "(id=" ++ c.id ++ ",title=" ++ c.title ++ ",score=" ++ serializeScore c.score ++
    ",auditRefs=[" ++ joinWith "," (c.auditRefs.map serializeAuditRef) ++ "])"

/-- Serialize one audit entry. -/
def serializeAudit (a : Audit) : String :=
  "(score=" ++ serializeScore a.score ++ ",mode=" ++ a.scoreDisplayMode ++
    ",warnings=[" ++ joinWith "," a.warnings ++ "],errorMessage=" ++
    (match a.errorMessage with | none => "null" | some m => m) ++
    ",details=" ++
    (match a.details with
     | none => "null"
     | some d => "(type=" ++ d.type ++ ",data=" ++ d.data ++ ")") ++ ")"

/-- Modelled from the spec: `ReportGenerator.sanitizeJson` lives in
`report/report-generator.js`, which is not under `src/`; the spec only says
the psi flavor "serializes the narrowed Result to a sanitized embeddable
string".  We model it as a concrete structural serialization of the Result,
so that distinct Results serialize to distinct strings exactly as a JSON
serialization would. -/
def sanitizeJson (lhr : LHR) : String :=
  "(categories=[" ++
    joinWith "," (lhr.categories.map (fun kv => kv.1 ++ ":" ++ serializeCategory kv.2)) ++
    "],audits=[" ++
    joinWith "," (lhr.audits.map (fun kv => kv.1 ++ ":" ++ serializeAudit kv.2)) ++
    "])"

/-- Modelled from the spec: `ReportGenerator.replaceStrings` lives in
`report/report-generator.js`, which is not under `src/`; the spec says the psi
flavor "substitutes it plus supporting script/style payloads into a fixed host
template at three named placeholder tokens".  Each `(search, replacement)`
pair is substituted at its placeholder token in turn. -/
def replaceStrings (source : String) (replacements : List (String × String)) : String :=
  replacements.foldl (fun acc kv => jsReplaceFirst acc kv.1 kv.2) source

/-- The external file contents read by `generatePsiReportHtml`: the faux-PSI
host template, the two script payloads (`dist/report/psi.js` and
`report/test-assets/faux-psi.js`) and the report stylesheet
(`htmlReportAssets.REPORT_CSS`). -/
structure Assets where
  psiTemplate : String
  psiJs : String
  fauxPsiJs : String
  reportCss : String

/-- `generatePsiReportHtml` from `build/build-sample-reports.js`.  Note that
the source function takes no parameter: it always reads the module-level
`lhr`, so the base Result is passed here explicitly by its caller.

```js
const sanitizedJson = ReportGenerator.sanitizeJson(tweakLhrForPsi(lhr));
const PSI_TEMPLATE = fs.readFileSync(...faux-psi-template.html...);
const PSI_JAVASCRIPT = `\n${...psi.js...};\n${...faux-psi.js...};\n  `;
const html = ReportGenerator.replaceStrings(PSI_TEMPLATE, [
  {search: '%%LIGHTHOUSE_JSON%%', replacement: sanitizedJson},
  {search: '%%LIGHTHOUSE_JAVASCRIPT%%', replacement: PSI_JAVASCRIPT},
  {search: '/*%%LIGHTHOUSE_CSS%%*/', replacement: htmlReportAssets.REPORT_CSS},
]);
return html;
```

`none` models the `TypeError` thrown by `tweakLhrForPsi` when the base Result
lacks a `performance` category. -/
def generatePsiReportHtml (assets : Assets) (baseLhr : LHR) : Option String :=
  (tweakLhrForPsi baseLhr).map (fun trimmed =>
    replaceStrings assets.psiTemplate
      [("%%LIGHTHOUSE_JSON%%", sanitizeJson trimmed),
       ("%%LIGHTHOUSE_JAVASCRIPT%%",
         "\n" ++ assets.psiJs ++ ";\n" ++ assets.fauxPsiJs ++ ";\n  "),
       ("/*%%LIGHTHOUSE_CSS%%*/", assets.reportCss)])

/-! ## `generateErrorLHR` (synthetic error-path builder) -/

/-- The `URL` member of the hand-authored artifacts record. -/
structure ArtifactURL where
  requestedUrl : String
  finalUrl : String
deriving DecidableEq

/-- The fixed-shape `LH.BaseArtifacts` record built by `generateErrorLHR`
(the members that are plain data; the nested `settings`, empty containers and
null markers carry no information used by any claim). -/
structure BaseArtifacts where
  fetchTime : String
  LighthouseRunWarnings : List String
  HostFormFactor : String
  HostUserAgent : String
  NetworkUserAgent : String
  BenchmarkIndex : Nat
  URL : ArtifactURL
deriving DecidableEq

/-- The literal artifacts value from `generateErrorLHR`. -/
def errorArtifacts : BaseArtifacts :=
  { fetchTime := "2019-06-26T23:56:58.381Z",
    LighthouseRunWarnings :=
      ["Something went wrong with recording the trace over your page load. Please run Lighthouse again. (NO_FCP)"],
    HostFormFactor := "desktop",
    HostUserAgent := "Mozilla/5.0 ErrorUserAgent Chrome/66",
    NetworkUserAgent := "Mozilla/5.0 ErrorUserAgent Chrome/66",
    BenchmarkIndex := 1000,
    URL := { requestedUrl := "http://fakeurl.com", finalUrl := "http://fakeurl.com" } }

/-- First fixed `font-display` diagnostic string. -/
def fontDisplayWarning1 : String :=
  "Lighthouse was unable to automatically check the font-display value for the following URL: https://secure-ds.serving-sys.com/resources/PROD/html5/105657/20190307/1074580285/43862346571980472/fonts/IBMPlexSans-Light-Latin1.woff."

/-- Second fixed `font-display` diagnostic string. -/
def fontDisplayWarning2 : String :=
  "Lighthouse was unable to automatically check the font-display value for the following URL: https://secure-ds.serving-sys.com/resources/PROD/html5/105657/20190307/1074580285/43862346571980472/fonts/IBMPlexSans-Bold-Latin1.woff."

/-- The fixed `offscreen-images` warning string. -/
def offscreenImagesWarning : String :=
  "Invalid image sizing information: https://cdn.cnn.com/cnn/.e1mo/img/4.0/vr/vr_new_asset.png"

/-- The fixed `apple-touch-icon` warning string. -/
def appleTouchIconWarning : String :=
  "`apple-touch-icon-precomposed` is out of date; `apple-touch-icon` is preferred."

/-- The audit overrides applied by `generateErrorLHR` after the audit-only
run returns `errorLhr`:

```js
errorLhr.audits['font-display'].warnings = [ ...two fixed strings... ];
const offscreenImagesAudit = errorLhr.audits['offscreen-images'];
offscreenImagesAudit.warnings = [ ...one fixed string... ];
offscreenImagesAudit.errorMessage = undefined;
offscreenImagesAudit.scoreDisplayMode = 'binary';
offscreenImagesAudit.score = 1;
const appleTouchIconAudit = errorLhr.audits['apple-touch-icon'];
appleTouchIconAudit.warnings = [ ...one fixed string... ];
appleTouchIconAudit.errorMessage = undefined;
appleTouchIconAudit.scoreDisplayMode = 'binary';
appleTouchIconAudit.score = 1;
```

A missing audit would make the property write throw a `TypeError`, modelled as
`none`. -/
def applyErrorTweaks (lhr : LHR) : Option LHR := do
  let fd ← jget lhr.audits "font-display"
  let fd2 : Audit := { fd with warnings := [fontDisplayWarning1, fontDisplayWarning2] }
  let lhr1 : LHR := { lhr with audits := jset lhr.audits "font-display" fd2 }
  let oi ← jget lhr1.audits "offscreen-images"
  let oi2 : Audit := { oi with warnings := [offscreenImagesWarning], errorMessage := none,
                               scoreDisplayMode := "binary", score := some 1 }
  let lhr2 : LHR := { lhr1 with audits := jset lhr1.audits "offscreen-images" oi2 }
  let ati ← jget lhr2.audits "apple-touch-icon"
  let ati2 : Audit := { ati with warnings := [appleTouchIconWarning], errorMessage := none,
                                 scoreDisplayMode := "binary", score := some 1 }
  some { lhr2 with audits := jset lhr2.audits "apple-touch-icon" ati2 }

/-- The result object returned by the audit-only executor
(`lighthouse(url, {auditMode: TMP})` resolves to a runner result whose `lhr`
member is the Result, or to `undefined`, modelled by `Option`). -/
structure RunnerResult where
  lhr : LHR
deriving DecidableEq

/-- The file-system state touched by `generateErrorLHR`: whether the scratch
directory `${DIST}/.tmp/` exists, and the artifacts file written inside it. -/
structure FsState where
  tmpExists : Bool
  tmpArtifacts : Option BaseArtifacts
deriving DecidableEq

/-- `generateErrorLHR` from `build/build-sample-reports.js`, with the
audit-only executor (`lighthouse`) passed as a function of the requested URL
and the scratch-directory state threaded explicitly:

```js
const TMP = `${DIST}/.tmp/`;
fs.mkdirSync(TMP, {recursive: true});
fs.writeFileSync(`${TMP}/artifacts.json`, JSON.stringify(artifacts), 'utf-8');
const errorRunnerResult = await lighthouse(artifacts.URL.requestedUrl, {auditMode: TMP});
if (!errorRunnerResult) throw new Error('Failed to run lighthouse on empty artifacts');
const errorLhr = errorRunnerResult.lhr;
... audit overrides (applyErrorTweaks) ...
fs.rmdirSync(TMP, {recursive: true});
return errorLhr;
```

The `fs.rmdirSync` call is the last statement before `return` and is not
inside a `try`/`finally`, so it runs only on the successful path; a throw from
the executor, the `undefined` check, or the audit overrides leaves the scratch
directory behind, exactly as in the source. -/
def generateErrorLHR (runner : String → Except String (Option RunnerResult))
    (_fs : FsState) : Except String LHR × FsState :=
  let fs1 : FsState := { tmpExists := true, tmpArtifacts := some errorArtifacts }
  match runner errorArtifacts.URL.requestedUrl with
  | Except.error e => (Except.error e, fs1)
  | Except.ok none => (Except.error "Failed to run lighthouse on empty artifacts", fs1)
  | Except.ok (some errorRunnerResult) =>
    match applyErrorTweaks errorRunnerResult.lhr with
    | none => (Except.error "TypeError: cannot set properties of undefined", fs1)
    | some errorLhr => (Except.ok errorLhr, { tmpExists := false, tmpArtifacts := none })

/-! ## The variant orchestrator (the top-level IIFE) -/

/-- The three environment flavors iterated by the orchestrator loop
(`for (const variant of ['', '⌣.cdt.', '⌣.psi.'])`). -/
def flavors : List String := ["", "⌣.cdt.", "⌣.psi."]

/-- One loop body of the orchestrator:

```js
let html = variant.includes('psi') ?
  generatePsiReportHtml() :
  ReportGenerator.generateReportHtml(lhr);
if (variant.includes('cdt')) {
  html = html.replace(`"lh-root lh-vars"`, `"lh-root lh-vars lh-devtools"`);
}
```

`gen` is the external generic renderer `ReportGenerator.generateReportHtml`;
`psiHtml` is the (deterministic) value of `generatePsiReportHtml()`. -/
def renderVariantHtml (gen : LHR → String) (psiHtml : String) (lhr : LHR)
    (variant : String) : String :=
  let html := if jsIncludes variant "psi" then psiHtml else gen lhr
  if jsIncludes variant "cdt" then
    jsReplaceFirst html "\"lh-root lh-vars\"" "\"lh-root lh-vars lh-devtools\""
  else html

/-- The six variant names, in the insertion order of the `filenameToLhr`
object literal. -/
def sampleFileNames : List String :=
  ["english", "espanol", "ɑrabic", "xl-accented", "error", "single-category"]

/-- The orchestrator IIFE of `build/build-sample-reports.js`:

```js
addPluginCategory(lhr);
const errorLhr = await generateErrorLHR();
const filenameToLhr = {
  'english': lhr,
  'espanol': swapLocale(lhr, 'es').lhr,
  'ɑrabic': swapLocale(lhr, 'ar').lhr,
  'xl-accented': swapLocale(lhr, 'en-XL').lhr,
  'error': errorLhr,
  'single-category': tweakLhrForPsi(lhr),
};
Object.entries(filenameToLhr).forEach(([filename, lhr]) => {
  for (const variant of ['', '⌣.cdt.', '⌣.psi.']) {
    let html = ...renderVariantHtml...;
    const filepath = `${DIST}/${variant}${filename}/index.html`;
    fs.mkdirSync(path.dirname(filepath), {recursive: true});
    fs.writeFileSync(filepath, html, {encoding: 'utf-8'});
  }
});
```

`swap` is the external locale translator (`swapLocale(lhr, tag).lhr`), `gen`
the external generic renderer, `runner` the audit-only executor, and `dist`
the fixed distribution root `DIST`.  The returned list holds the written
`(filepath, html)` pairs in write order; `Except.error` models a thrown
error aborting the run.  The file-system state of the scratch directory is
returned alongside. -/
def buildSampleReports (gen : LHR → String) (assets : Assets)
    (swap : String → LHR → LHR) (runner : String → Except String (Option RunnerResult))
    (dist : String) (lhr0 : LHR) (fs0 : FsState) :
    Except String (List (String × String)) × FsState :=
  let lhr := addPluginCategory lhr0
  match generateErrorLHR runner fs0 with
  | (Except.error e, fs1) => (Except.error e, fs1)
  | (Except.ok errorLhr, fs1) =>
    match tweakLhrForPsi lhr with
    | none => (Except.error "TypeError: cannot read properties of undefined", fs1)
    | some singleCategory =>
      match generatePsiReportHtml assets lhr with
      | none => (Except.error "TypeError: cannot read properties of undefined", fs1)
      | some psiHtml =>
        let filenameToLhr : List (String × LHR) :=
          [("english", lhr), ("espanol", swap "es" lhr), ("ɑrabic", swap "ar" lhr),
           ("xl-accented", swap "en-XL" lhr), ("error", errorLhr),
           ("single-category", singleCategory)]
        (Except.ok (filenameToLhr.flatMap (fun nl =>
          flavors.map (fun variant =>
            (dist ++ "/" ++ variant ++ nl.1 ++ "/index.html",
             renderVariantHtml gen psiHtml nl.2 variant)))), fs1)

/-- The 18 output file paths of a complete orchestrator run, in write order. -/
def expectedPaths (dist : String) : List String :=
  sampleFileNames.flatMap (fun name =>
    flavors.map (fun variant => dist ++ "/" ++ variant ++ name ++ "/index.html"))

/-- The same output paths relative to the distribution root. -/
def expectedRelPaths : List String :=
  sampleFileNames.flatMap (fun name =>
    flavors.map (fun variant => "/" ++ variant ++ name ++ "/index.html"))

/-! ## `_getFinalScreenshot` (PSI lab-data extractor, `report/clients/psi.js`) -/

/-- An audit reference of a *prepared* report Result
(`LH.ReportResult.Category`): `Util.prepareReportResult` attaches the referenced
audit's result object to each reference. -/
structure ResultAuditRef where
  id : String
  result : Option Audit
deriving DecidableEq

/-- The performance category of a prepared report Result, as consumed by
`_getFinalScreenshot`. -/
structure ReportCategory where
  auditRefs : List ResultAuditRef
deriving DecidableEq

/-- `_getFinalScreenshot` from the PSI client helpers:

```js
const auditRef = perfCategory.auditRefs.find(audit => audit.id === 'final-screenshot');
if (!auditRef || !auditRef.result || auditRef.result.scoreDisplayMode === 'error') return null;
const details = auditRef.result.details;
if (!details || details.type !== 'screenshot') return null;
return details.data;
```

`null` is modelled as `none`. -/
def getFinalScreenshot (perfCategory : ReportCategory) : Option String :=
  match perfCategory.auditRefs.find? (fun audit => audit.id == "final-screenshot") with
  | none => none
  | some auditRef =>
    match auditRef.result with
    | none => none
    | some r =>
      if r.scoreDisplayMode == "error" then none
      else
        match r.details with
        | none => none
        | some details => if details.type != "screenshot" then none else some details.data

/-! ## Heap model

The frame/aliasing claims (`tweakLhrForPsi` does not mutate its input and
returns an aliasing-free deep copy; `addPluginCategory` mutates its input in
place) are about JS reference semantics, so the same functions are embedded a
second time over an explicit heap: numbered objects, property reads as heap
lookups, property writes as heap updates, and `JSON.parse(JSON.stringify(x))`
as a recursive copy into fresh addresses. -/

/-- A JS value stored in an object property: either `undefined` or a
reference to a heap object. -/
inductive JVal where
  | undef : JVal
  | addr : Nat → JVal
deriving DecidableEq

/-- A heap object: a Result object (two references), a string-keyed dictionary
(the `categories`/`audits` mappings), a category object (plain fields plus a
reference to its `auditRefs` array), an array of references, an audit
reference object, or an audit object (a plain value record — nothing in this
program writes through an audit reference obtained from a *raw* Result). -/
inductive Obj where
  | lhrO (categories audits : Nat)
  | dictO (entries : List (String × JVal))
  | catO (id title : String) (score : Option ℚ) (auditRefs : Nat)
  | arrO (elems : List Nat)
  | refO (id : String)
  | audO (a : Audit)
deriving DecidableEq

/-- The heap: an association list of allocated objects and the next fresh
address. -/
structure Heap where
  objs : List (Nat × Obj)
  next : Nat
deriving DecidableEq

/-- Read the object at an address. -/
def getObj (h : Heap) (a : Nat) : Option Obj := jget h.objs a

/-- Allocate a fresh object, returning the new heap and the fresh address. -/
def allocObj (h : Heap) (o : Obj) : Heap × Nat :=
  (⟨(h.next, o) :: h.objs, h.next + 1⟩, h.next)

/-- Overwrite the object stored at an (existing) address. -/
def updateObj (h : Heap) (a : Nat) (o : Obj) : Heap :=
  ⟨jset h.objs a o, h.next⟩

/-- The addresses stored in the properties of a dictionary. -/
def dictAddrs (l : List (String × JVal)) : List Nat :=
  l.filterMap (fun kv => match kv.2 with | JVal.addr x => some x | JVal.undef => none)

/-- The addresses stored directly in an object's properties. -/
def objAddrs : Obj → List Nat
  | Obj.lhrO cd ad => [cd, ad]
  | Obj.dictO l => dictAddrs l
  | Obj.catO _ _ _ arrA => [arrA]
  | Obj.arrO l => l
  | Obj.refO _ => []
  | Obj.audO _ => []

/-- Read property `k` of a dictionary: a missing key is `undefined`. -/
def dictGet (l : List (String × JVal)) (k : String) : JVal :=
  match jget l k with
  | some v => v
  | none => JVal.undef

/-- The entries of the dictionary at an address (defensive default `[]`;
well-formed runs only apply it to dictionary addresses). -/
def getDictEntries (h : Heap) (a : Nat) : List (String × JVal) :=
  match getObj h a with
  | some (Obj.dictO l) => l
  | _ => []

/-- The elements of the array at an address (defensive default `[]`). -/
def getArrElems (h : Heap) (a : Nat) : List Nat :=
  match getObj h a with
  | some (Obj.arrO l) => l
  | _ => []

/-- The `auditRefs` array address of the category at an address, as a
zero-or-one element list. -/
def getCatArr (h : Heap) (a : Nat) : List Nat :=
  match getObj h a with
  | some (Obj.catO _ _ _ arrA) => [arrA]
  | _ => []

/-- The value copy of one audit-reference object (defensive default for a
dangling reference, which a well-formed heap never exhibits). -/
def copiedRefObj (h : Heap) (a : Nat) : Obj :=
  match getObj h a with
  | some (Obj.refO s) => Obj.refO s
  | _ => Obj.refO ""

/-- `JSON.parse(JSON.stringify(·))` on an array of audit-reference objects:
copy each element to a fresh address. -/
def copyRefList (h : Heap) : List Nat → Heap × List Nat
  | [] => (h, [])
  | a :: rest =>
    let p1 := allocObj h (copiedRefObj h a)
    let p2 := copyRefList p1.1 rest
    (p2.1, p1.2 :: p2.2)

/-- Copy one category object: copy its `auditRefs` elements, allocate the
fresh array, then allocate the fresh category object. -/
def copyCat (h : Heap) (a : Nat) : Heap × Nat :=
  match getObj h a with
  | some (Obj.catO i t s arrA) =>
    let p1 := copyRefList h (getArrElems h arrA)
    let p2 := allocObj p1.1 (Obj.arrO p1.2)
    allocObj p2.1 (Obj.catO i t s p2.2)
  | _ =>
    let p2 := allocObj h (Obj.arrO [])
    allocObj p2.1 (Obj.catO "" "" none p2.2)

/-- Copy the entries of a `categories` dictionary.  `JSON.stringify` drops
properties whose value is `undefined`, so `undef` entries are dropped. -/
def copyCatDictEntries (h : Heap) : List (String × JVal) → Heap × List (String × JVal)
  | [] => (h, [])
  | (k, v) :: rest =>
    match v with
    | JVal.undef => copyCatDictEntries h rest
    | JVal.addr a =>
      let p1 := copyCat h a
      let p2 := copyCatDictEntries p1.1 rest
      (p2.1, (k, JVal.addr p1.2) :: p2.2)

/-- The value copy of one audit object (defensive default for a dangling
reference, which a well-formed heap never exhibits). -/
def copiedAudObj (h : Heap) (a : Nat) : Obj :=
  match getObj h a with
  | some (Obj.audO au) => Obj.audO au
  | _ => Obj.audO { score := none, scoreDisplayMode := "", warnings := [],
                    errorMessage := none, details := none }

/-- Copy the entries of an `audits` dictionary (each value is copied to a
fresh audit object; `undef` entries are dropped as by `JSON.stringify`). -/
def copyAudDictEntries (h : Heap) : List (String × JVal) → Heap × List (String × JVal)
  | [] => (h, [])
  | (k, v) :: rest =>
    match v with
    | JVal.undef => copyAudDictEntries h rest
    | JVal.addr a =>
      let p1 := allocObj h (copiedAudObj h a)
      let p2 := copyAudDictEntries p1.1 rest
      (p2.1, (k, JVal.addr p1.2) :: p2.2)

/-- `JSON.parse(JSON.stringify(lhr))`: deep-copy a Result object into wholly
fresh addresses. -/
def deepCopyLHR (h : Heap) (a : Nat) : Heap × Nat :=
  match getObj h a with
  | some (Obj.lhrO cd ad) =>
    let p1 := copyCatDictEntries h (getDictEntries h cd)
    let p2 := allocObj p1.1 (Obj.dictO p1.2)
    let p3 := copyAudDictEntries p2.1 (getDictEntries p2.1 ad)
    let p4 := allocObj p3.1 (Obj.dictO p3.2)
    allocObj p4.1 (Obj.lhrO p2.2 p4.2)
  | _ =>
    let p2 := allocObj h (Obj.dictO [])
    let p4 := allocObj p2.1 (Obj.dictO [])
    allocObj p4.1 (Obj.lhrO p2.2 p4.2)

/-- The statements of `tweakLhrForPsi` after the deep copy, executed on the
clone at address `c`:

* `clone.categories = {'performance': clone.categories.performance}` —
  allocate the fresh one-entry dictionary and redirect the clone's
  `categories` reference;
* `delete clone.audits['performance-budget']` — in-place update of the
  clone's `audits` dictionary;
* `clone.categories.performance.auditRefs = ...filter(...)` — throws
  (`none`) when `performance` is `undefined`, otherwise allocates the array
  produced by `filter` and redirects the category's `auditRefs` reference.

The first two statements are split into `tweakDictsStep`.
-/
def tweakDictsStep (h1 : Heap) (c ad : Nat) (perfV : JVal) : Heap :=
  let p2 := allocObj h1 (Obj.dictO [("performance", perfV)])
  let h3 := updateObj p2.1 c (Obj.lhrO p2.2 ad)
  updateObj h3 ad
    (Obj.dictO ((getDictEntries h3 ad).filter (fun kv => kv.1 != "performance-budget")))

def keptElems (h4 : Heap) (arrA : Nat) : List Nat :=
  (getArrElems h4 arrA).filter (fun ra =>
    match getObj h4 ra with
    | some (Obj.refO rid) => !(strEndsWith rid "-budget")
    | _ => true)

def tweakStep3 (h4 : Heap) (c pc : Nat) : Option Nat × Heap :=
  match getObj h4 pc with
  | some (Obj.catO i t s arrA) =>
    (some c,
     updateObj (allocObj h4 (Obj.arrO (keptElems h4 arrA))).1 pc
       (Obj.catO i t s (allocObj h4 (Obj.arrO (keptElems h4 arrA))).2))
  | _ => (none, h4)

def tweakStep2 (h1 : Heap) (c : Nat) : Option Nat × Heap :=
  match getObj h1 c with
  | some (Obj.lhrO cd ad) =>
    match dictGet (getDictEntries h1 cd) "performance" with
    | JVal.undef => (none, tweakDictsStep h1 c ad JVal.undef)
    | JVal.addr pc => tweakStep3 (tweakDictsStep h1 c ad (JVal.addr pc)) c pc
  | _ => (none, h1)

/-- Heap-level `tweakLhrForPsi`: deep copy, then the clone edits.  The final
heap is returned also when the `TypeError` (`none`) is raised, so that the
frame property can be stated about every exit path. -/
def tweakLhrForPsiH (h : Heap) (a : Nat) : Option Nat × Heap :=
  let p := deepCopyLHR h a
  tweakStep2 p.1 p.2

/-- Heap-level `addPluginCategory`:

```js
lhr.categories['lighthouse-plugin-someplugin'] = {
  id: 'lighthouse-plugin-someplugin', title: 'Plugin', score: 0.5, auditRefs: [],
};
```

allocates the fresh category object (with its fresh empty `auditRefs` array)
and writes it into the *input* Result's `categories` dictionary, in place. -/
def addPluginCategoryH (h : Heap) (a : Nat) : Heap :=
  match getObj h a with
  | some (Obj.lhrO cd _ad) =>
    let p1 := allocObj h (Obj.arrO [])
    let p2 := allocObj p1.1 (Obj.catO "lighthouse-plugin-someplugin" "Plugin" (some (1/2)) p1.2)
    updateObj p2.1 cd
      (Obj.dictO (jsetOrAppend (getDictEntries p2.1 cd) "lighthouse-plugin-someplugin"
        (JVal.addr p2.2)))
  | _ => h

/-- The addresses reachable from a Result object, to the full (fixed) depth of
the modelled structure: the Result itself, its two dictionaries, the category
and audit objects held in them, the categories' `auditRefs` arrays and their
audit-reference elements. -/
def reachLHR (h : Heap) (a : Nat) : List Nat :=
  match getObj h a with
  | some (Obj.lhrO cd ad) =>
    a :: cd :: ad ::
      (dictAddrs (getDictEntries h cd) ++ dictAddrs (getDictEntries h ad) ++
       (dictAddrs (getDictEntries h cd)).flatMap (getCatArr h) ++
       ((dictAddrs (getDictEntries h cd)).flatMap (getCatArr h)).flatMap (getArrElems h))
  | _ => [a]

/-- Heap well-formedness: every allocated address, and every address stored in
an allocated object, is below the allocation counter. -/
def wfHeap (h : Heap) : Prop :=
  ∀ p ∈ h.objs, p.1 < h.next ∧ ∀ b ∈ objAddrs p.2, b < h.next

/-- All old addresses keep their objects (the frame of an operation that only
allocates fresh objects and writes through fresh references), and the
allocation counter does not decrease. -/
def PresB (n : Nat) (h h' : Heap) : Prop :=
  h.next ≤ h'.next ∧ ∀ b, b < n → getObj h' b = getObj h b

/-- Every object reachable at an address `≥ n` stores only addresses `≥ n`:
the fresh part of the heap never points back into the old part. -/
def FreshInv (n : Nat) (h : Heap) : Prop :=
  n ≤ h.next ∧
    ∀ a o, getObj h a = some o → n ≤ a → ∀ b ∈ objAddrs o, n ≤ b

/-- Every object at an address `< n` stores only addresses `< n`: the old part
of the heap never points into the fresh part. -/
def LowInv (n : Nat) (h : Heap) : Prop :=
  ∀ a o, getObj h a = some o → a < n → ∀ b ∈ objAddrs o, b < n

/-! ## Concrete inputs used by witnesses and counterexamples -/

/-- An audit that passed cleanly. -/
def passingAudit : Audit :=
  { score := some 1, scoreDisplayMode := "numeric", warnings := [],
    errorMessage := none, details := none }

/-- An audit that errored during the run. -/
def erroredAudit : Audit :=
  { score := none, scoreDisplayMode := "error", warnings := [],
    errorMessage := some "Required trace gatherer did not run.", details := none }

/-- A small performance category with budget and non-budget references. -/
def samplePerfCategory : Category :=
  { id := "performance", title := "Performance", score := some 1,
    auditRefs := [⟨"first-contentful-paint"⟩, ⟨"performance-budget"⟩,
                  ⟨"timing-budget"⟩, ⟨"final-screenshot"⟩] }

/-- A second category, dropped by the trim. -/
def sampleSeoCategory : Category :=
  { id := "seo", title := "SEO", score := none, auditRefs := [⟨"viewport"⟩] }

/-- A small but structurally complete sample Result. -/
def sampleLhr : LHR :=
  { categories := [("performance", samplePerfCategory), ("seo", sampleSeoCategory)],
    audits := [("first-contentful-paint", passingAudit), ("performance-budget", passingAudit),
               ("timing-budget", passingAudit), ("final-screenshot", passingAudit),
               ("font-display", erroredAudit), ("offscreen-images", erroredAudit),
               ("apple-touch-icon", erroredAudit), ("viewport", passingAudit)] }

/-- A Result whose categories mapping has no `performance` key. -/
def noPerfLhr : LHR :=
  { categories := [("seo", sampleSeoCategory)], audits := [("viewport", passingAudit)] }

/-- The trimmed sample Result. -/
def sampleTrimmed : LHR := (tweakLhrForPsi sampleLhr).getD { categories := [], audits := [] }

/-- A prepared performance category whose `final-screenshot` reference errored. -/
def screenshotErrorCategory : ReportCategory :=
  { auditRefs := [{ id := "final-screenshot",
                    result := some { score := none, scoreDisplayMode := "error",
                                     warnings := [], errorMessage := none,
                                     details := some { type := "screenshot", data := "abc" } } }] }

/-- A prepared performance category whose `final-screenshot` reference has a
binary score display mode and screenshot details with data `abc`. -/
def screenshotBinaryCategory : ReportCategory :=
  { auditRefs := [{ id := "final-screenshot",
                    result := some { score := some 1, scoreDisplayMode := "binary",
                                     warnings := [], errorMessage := none,
                                     details := some { type := "screenshot", data := "abc" } } }] }

/-- A concrete generic renderer for witness runs. -/
def genW : LHR → String := fun lhr => "[rendered \"lh-root lh-vars\" " ++ sanitizeJson lhr ++ "]"

/-- A concrete locale translator for witness runs (identity translation). -/
def swapW : String → LHR → LHR := fun _tag lhr => lhr

/-- Concrete template and payloads for witness runs. -/
def assetsW : Assets :=
  { psiTemplate := "<html>%%LIGHTHOUSE_JSON%% <s>%%LIGHTHOUSE_JAVASCRIPT%%</s> <c>/*%%LIGHTHOUSE_CSS%%*/</c></html>",
    psiJs := "PSI_JS", fauxPsiJs := "FAUX_PSI_JS", reportCss := "CSS" }

/-- The Result a concrete audit-only executor returns for witness runs: it
carries the three audits the error-path builder overwrites, and a performance
category that differs from the base Result's. -/
def errRunLhr : LHR :=
  { categories := [("performance",
      { id := "performance", title := "Errored run", score := none,
        auditRefs := [⟨"first-contentful-paint"⟩] })],
    audits := [("first-contentful-paint", erroredAudit), ("font-display", erroredAudit),
               ("offscreen-images", erroredAudit), ("apple-touch-icon", erroredAudit)] }

/-- A concrete audit-only executor that succeeds with `errRunLhr`. -/
def runnerW : String → Except String (Option RunnerResult) :=
  fun _url => Except.ok (some { lhr := errRunLhr })

/-- Initial file-system state: no scratch directory. -/
def fsW : FsState := { tmpExists := false, tmpArtifacts := none }

/-- A complete concrete orchestrator run. -/
def buildW : Except String (List (String × String)) × FsState :=
  buildSampleReports genW assetsW swapW runnerW "dist/now" sampleLhr fsW

/-- The file list written by the concrete run. -/
def outW : List (String × String) := buildW.1.toOption.getD []

/-- The error-path Result of the concrete run. -/
def errorLhrW : LHR :=
  (generateErrorLHR runnerW fsW).1.toOption.getD { categories := [], audits := [] }

/-- The psi-flavor markup of the concrete run (always derived from the base
Result). -/
def psiHtmlW : String := (generatePsiReportHtml assetsW (addPluginCategory sampleLhr)).getD ""

/-- A small well-formed heap holding one Result object at address `0`. -/
def sampleHeap : Heap :=
  { objs := [(0, Obj.lhrO 1 2),
             (1, Obj.dictO [("performance", JVal.addr 3), ("seo", JVal.addr 6)]),
             (2, Obj.dictO [("performance-budget", JVal.addr 8),
                            ("first-contentful-paint", JVal.addr 9)]),
             (3, Obj.catO "performance" "Performance" (some 1) 4),
             (4, Obj.arrO [5, 7]),
             (5, Obj.refO "performance-budget"),
             (6, Obj.catO "seo" "SEO" none 10),
             (7, Obj.refO "first-contentful-paint"),
             (8, Obj.audO passingAudit),
             (9, Obj.audO passingAudit),
             (10, Obj.arrO [])],
    next := 11 }

/-! # Lemmas and theorems -/

/-! ## Association-list lemmas -/

theorem jget_mem {κ α : Type} [DecidableEq κ] {l : List (κ × α)} {k : κ} {v : α}
    (h : jget l k = some v) : (k, v) ∈ l := by
  induction l with
  | nil => simp [jget] at h
  | cons kv rest ih =>
    obtain ⟨k', v'⟩ := kv
    by_cases hk : k' = k
    · subst hk
      simp [jget] at h
      simp [h]
    · simp [jget, hk] at h
      exact List.mem_cons_of_mem _ (ih h)

theorem jget_jset_self {κ α : Type} [DecidableEq κ] (l : List (κ × α)) (k : κ) (v : α) :
    jget (jset l k v) k = (jget l k).map (fun _ => v) := by
  induction l with
  | nil => simp [jget, jset]
  | cons kv rest ih =>
    obtain ⟨k', v'⟩ := kv
    simp only [jset, List.map_cons] at *
    by_cases hk : k' = k
    · rw [if_pos hk]
      subst hk
      simp [jget]
    · rw [if_neg hk]
      simp [jget, hk, ih]

theorem jget_jset_ne {κ α : Type} [DecidableEq κ] (l : List (κ × α)) {k k' : κ} (v : α)
    (h : k' ≠ k) : jget (jset l k v) k' = jget l k' := by
  induction l with
  | nil => simp [jget, jset]
  | cons kv rest ih =>
    obtain ⟨k'', v''⟩ := kv
    simp only [jset, List.map_cons] at *
    by_cases hk : k'' = k
    · rw [if_pos hk]
      subst hk
      simp [jget, Ne.symm h, ih]
    · rw [if_neg hk]
      simp [jget, ih]

theorem jget_of_any_eq_false {κ α : Type} [DecidableEq κ] {l : List (κ × α)} {k : κ}
    (h : l.any (fun kv => kv.1 = k) = false) : jget l k = none := by
  induction l with
  | nil => rfl
  | cons kv rest ih =>
    simp only [List.any_cons, Bool.or_eq_false_iff] at h
    obtain ⟨k', v'⟩ := kv
    have hk : ¬ (k' = k) := by simpa using h.1
    simp [jget, hk, ih h.2]

theorem jget_append {κ α : Type} [DecidableEq κ] {l : List (κ × α)} (m : List (κ × α))
    {k : κ} (h : jget l k = none) : jget (l ++ m) k = jget m k := by
  induction l with
  | nil => simp
  | cons kv rest ih =>
    obtain ⟨k', v'⟩ := kv
    by_cases hk : k' = k
    · subst hk; simp [jget] at h
    · simp [jget, hk] at h ⊢
      exact ih h

theorem jget_isSome_of_any {κ α : Type} [DecidableEq κ] {l : List (κ × α)} {k : κ}
    (h : l.any (fun kv => kv.1 = k) = true) : ∃ w, jget l k = some w := by
  induction l with
  | nil => simp at h
  | cons kv rest ih =>
    obtain ⟨k', v'⟩ := kv
    by_cases hk : k' = k
    · subst hk
      exact ⟨v', by simp [jget]⟩
    · simp only [List.any_cons] at h
      have h2 : rest.any (fun kv => kv.1 = k) = true := by
        rcases Bool.or_eq_true_iff.mp h with h1 | h2
        · exact absurd (by simpa using h1) hk
        · exact h2
      obtain ⟨w, hw⟩ := ih h2
      exact ⟨w, by simp [jget, hk, hw]⟩

theorem jget_jsetOrAppend_self {κ α : Type} [DecidableEq κ] (l : List (κ × α)) (k : κ)
    (v : α) : jget (jsetOrAppend l k v) k = some v := by
  unfold jsetOrAppend
  by_cases hany : l.any (fun kv => kv.1 = k) = true
  · rw [if_pos hany, jget_jset_self]
    obtain ⟨w, hw⟩ := jget_isSome_of_any hany
    simp [hw]
  · have hfalse : l.any (fun kv => kv.1 = k) = false := by
      cases hb : l.any (fun kv => kv.1 = k) with
      | false => rfl
      | true => exact absurd hb hany
    rw [if_neg hany, jget_append _ (jget_of_any_eq_false hfalse)]
    simp [jget]

theorem jget_filter_key_none {α : Type} (l : List (String × α)) (k : String) :
    jget (l.filter (fun kv => kv.1 != k)) k = none := by
  induction l with
  | nil => rfl
  | cons kv rest ih =>
    obtain ⟨k', v'⟩ := kv
    by_cases hk : k' = k
    · subst hk
      simpa [List.filter_cons] using ih
    · have : (k' != k) = true := bne_iff_ne.mpr hk
      simp [List.filter_cons, this, jget, hk, ih]

/-! ## Heap operation lemmas -/

theorem getObj_alloc_lt {h : Heap} {b : Nat} (o : Obj) (hb : b < h.next) :
    getObj (allocObj h o).1 b = getObj h b := by
  have hne : h.next ≠ b := by omega
  simp [getObj, allocObj, jget, hne]

theorem getObj_alloc_self (h : Heap) (o : Obj) :
    getObj (allocObj h o).1 (allocObj h o).2 = some o := by
  simp [getObj, allocObj, jget]

theorem getObj_update_ne {h : Heap} {a b : Nat} (o : Obj) (hb : b ≠ a) :
    getObj (updateObj h a o) b = getObj h b := by
  simp only [getObj, updateObj]
  exact jget_jset_ne _ _ hb

theorem getObj_update_self {h : Heap} {a : Nat} {o0 : Obj} (o : Obj)
    (hs : getObj h a = some o0) : getObj (updateObj h a o) a = some o := by
  simp only [getObj, updateObj] at *
  rw [jget_jset_self, hs]
  rfl

theorem alloc_next (h : Heap) (o : Obj) : (allocObj h o).1.next = h.next + 1 := rfl

theorem alloc_res (h : Heap) (o : Obj) : (allocObj h o).2 = h.next := rfl

theorem update_next (h : Heap) (a : Nat) (o : Obj) : (updateObj h a o).next = h.next := rfl

/-! ## Frame and freshness invariants -/

theorem presB_refl (n : Nat) (h : Heap) : PresB n h h :=
  ⟨le_refl _, fun _ _ => rfl⟩

theorem presB_trans {n : Nat} {h1 h2 h3 : Heap} (p1 : PresB n h1 h2) (p2 : PresB n h2 h3) :
    PresB n h1 h3 :=
  ⟨le_trans p1.1 p2.1, fun b hb => (p2.2 b hb).trans (p1.2 b hb)⟩

theorem presB_alloc {n : Nat} {h : Heap} (hn : n ≤ h.next) (o : Obj) :
    PresB n h (allocObj h o).1 :=
  ⟨by simp [alloc_next], fun b hb => getObj_alloc_lt o (by omega)⟩

theorem presB_update {n : Nat} {h : Heap} {a : Nat} (hn : n ≤ a) (o : Obj) :
    PresB n h (updateObj h a o) :=
  ⟨le_of_eq (update_next h a o).symm, fun b hb => getObj_update_ne o (by omega)⟩

theorem freshInv_alloc {n : Nat} {h : Heap} (hf : FreshInv n h) {o : Obj}
    (ho : ∀ b ∈ objAddrs o, n ≤ b) : FreshInv n (allocObj h o).1 := by
  refine ⟨by have := hf.1; rw [alloc_next]; omega, ?_⟩
  intro a o' hget ha b hb
  by_cases hae : a = h.next
  · subst hae
    have hself : getObj (allocObj h o).1 h.next = some o := getObj_alloc_self h o
    rw [hself] at hget
    cases hget
    exact ho b hb
  · have hkeep : getObj (allocObj h o).1 a = getObj h a := by
      simp [getObj, allocObj, jget, Ne.symm hae]
    rw [hkeep] at hget
    exact hf.2 a o' hget ha b hb

theorem freshInv_update {n : Nat} {h : Heap} {a : Nat} (hf : FreshInv n h) {o : Obj}
    (ho : ∀ b ∈ objAddrs o, n ≤ b) : FreshInv n (updateObj h a o) := by
  refine ⟨by rw [update_next]; exact hf.1, ?_⟩
  intro a' o' hget ha' b hb
  by_cases hae : a' = a
  · subst hae
    simp only [getObj, updateObj] at hget
    rw [jget_jset_self] at hget
    cases hj : jget h.objs a' with
    | none => rw [hj] at hget; simp at hget
    | some w =>
      rw [hj] at hget
      simp at hget
      subst hget
      exact ho b hb
  · rw [getObj_update_ne o hae] at hget
    exact hf.2 a' o' hget ha' b hb

theorem lowInv_of_frame {n : Nat} {h h' : Heap} (hl : LowInv n h)
    (hp : ∀ b, b < n → getObj h' b = getObj h b) : LowInv n h' := by
  intro a o hg ha b hb
  exact hl a o (by rw [← hp a ha]; exact hg) ha b hb

theorem wf_getObj_lt {h : Heap} (hwf : wfHeap h) {a : Nat} {o : Obj}
    (hg : getObj h a = some o) : a < h.next ∧ ∀ b ∈ objAddrs o, b < h.next :=
  hwf (a, o) (jget_mem hg)

theorem wf_freshInv {h : Heap} (hwf : wfHeap h) : FreshInv h.next h := by
  refine ⟨le_refl _, ?_⟩
  intro a o hg ha b _hb
  exact absurd (wf_getObj_lt hwf hg).1 (by omega)

theorem wf_lowInv {h : Heap} (hwf : wfHeap h) : LowInv h.next h := by
  intro a o hg _ha b hb
  exact (wf_getObj_lt hwf hg).2 b hb

theorem dictGet_addr_mem {l : List (String × JVal)} {k : String} {x : Nat}
    (h : dictGet l k = JVal.addr x) : x ∈ dictAddrs l := by
  unfold dictGet at h
  cases hj : jget l k with
  | none => rw [hj] at h; cases h
  | some v =>
    rw [hj] at h
    subst h
    have := jget_mem hj
    exact List.mem_filterMap.mpr ⟨(k, JVal.addr x), this, rfl⟩

theorem dictAddrs_filter_subset (p : String × JVal → Bool) {l : List (String × JVal)}
    {x : Nat} (h : x ∈ dictAddrs (l.filter p)) : x ∈ dictAddrs l := by
  rcases List.mem_filterMap.mp h with ⟨kv, hmem, hkv⟩
  exact List.mem_filterMap.mpr ⟨kv, List.mem_of_mem_filter hmem, hkv⟩

/-! ## Specifications of the deep-copy helpers -/

theorem presB_mono {n n' : Nat} {h h' : Heap} (hnn : n ≤ n') (hp : PresB n' h h') :
    PresB n h h' :=
  ⟨hp.1, fun b hb => hp.2 b (by omega)⟩

theorem copiedRefObj_addrs (h : Heap) (a : Nat) : objAddrs (copiedRefObj h a) = [] := by
  unfold copiedRefObj
  split <;> rfl

theorem copiedAudObj_addrs (h : Heap) (a : Nat) : objAddrs (copiedAudObj h a) = [] := by
  unfold copiedAudObj
  split <;> rfl

theorem copyRefList_spec (as : List Nat) : ∀ h : Heap,
    PresB h.next h (copyRefList h as).1 ∧
    (∀ x ∈ (copyRefList h as).2, h.next ≤ x) ∧
    (∀ n, FreshInv n h → FreshInv n (copyRefList h as).1) := by
  induction as with
  | nil =>
    intro h
    exact ⟨presB_refl _ _, by simp [copyRefList], fun n hf => by simpa [copyRefList] using hf⟩
  | cons a rest ih =>
    intro h
    have ih2 := ih (allocObj h (copiedRefObj h a)).1
    have hP1 : PresB h.next h (allocObj h (copiedRefObj h a)).1 :=
      presB_alloc (le_refl _) _
    have hnext1 : h.next ≤ (allocObj h (copiedRefObj h a)).1.next := by
      rw [alloc_next]; omega
    refine ⟨?_, ?_, ?_⟩
    · show PresB h.next h (copyRefList (allocObj h (copiedRefObj h a)).1 rest).1
      exact presB_trans hP1 (presB_mono hnext1 ih2.1)
    · intro x hx
      simp only [copyRefList, List.mem_cons] at hx
      rcases hx with hx | hx
      · rw [hx, alloc_res]
      · exact le_trans hnext1 (ih2.2.1 x hx)
    · intro n hf
      exact ih2.2.2 n (freshInv_alloc hf (by rw [copiedRefObj_addrs]; simp))

theorem copyCat_spec (h : Heap) (a : Nat) :
    PresB h.next h (copyCat h a).1 ∧
    h.next ≤ (copyCat h a).2 ∧
    (∀ n, FreshInv n h → FreshInv n (copyCat h a).1) := by
  unfold copyCat
  split
  · next i t s arrA _ =>
    have hRef := copyRefList_spec (getArrElems h arrA) h
    set p1 := copyRefList h (getArrElems h arrA) with hp1
    have hP2 : PresB h.next p1.1 (allocObj p1.1 (Obj.arrO p1.2)).1 :=
      presB_mono hRef.1.1 (presB_alloc (le_refl _) _)
    have hn2 : h.next ≤ (allocObj p1.1 (Obj.arrO p1.2)).1.next := by
      rw [alloc_next]; have := hRef.1.1; omega
    refine ⟨?_, ?_, ?_⟩
    · exact presB_trans hRef.1 (presB_trans hP2 (presB_mono hn2 (presB_alloc (le_refl _) _)))
    · rw [alloc_res]; exact hn2
    · intro n hf
      have hf1 := hRef.2.2 n hf
      have hf2 : FreshInv n (allocObj p1.1 (Obj.arrO p1.2)).1 := by
        refine freshInv_alloc hf1 ?_
        intro b hb
        exact le_trans hf.1 (hRef.2.1 b hb)
      refine freshInv_alloc hf2 ?_
      intro b hb
      simp only [objAddrs, List.mem_singleton] at hb
      subst hb
      rw [alloc_res]
      exact le_trans hf.1 (le_trans hRef.1.1 (le_refl _))
  · next _ =>
    have hP2 : PresB h.next h (allocObj h (Obj.arrO [])).1 := presB_alloc (le_refl _) _
    have hn2 : h.next ≤ (allocObj h (Obj.arrO [])).1.next := by rw [alloc_next]; omega
    refine ⟨?_, ?_, ?_⟩
    · exact presB_trans hP2 (presB_mono hn2 (presB_alloc (le_refl _) _))
    · rw [alloc_res]; exact hn2
    · intro n hf
      have hf2 : FreshInv n (allocObj h (Obj.arrO [])).1 :=
        freshInv_alloc hf (by simp [objAddrs])
      refine freshInv_alloc hf2 ?_
      intro b hb
      simp only [objAddrs, List.mem_singleton] at hb
      subst hb
      rw [alloc_res]
      exact le_trans hf.1 (le_refl _)

theorem copyCatDictEntries_spec (l : List (String × JVal)) : ∀ h : Heap,
    PresB h.next h (copyCatDictEntries h l).1 ∧
    (∀ x ∈ dictAddrs (copyCatDictEntries h l).2, h.next ≤ x) ∧
    (∀ n, FreshInv n h → FreshInv n (copyCatDictEntries h l).1) := by
  induction l with
  | nil =>
    intro h
    exact ⟨presB_refl _ _, by simp [copyCatDictEntries, dictAddrs],
           fun n hf => by simpa [copyCatDictEntries] using hf⟩
  | cons kv rest ih =>
    intro h
    obtain ⟨k, v⟩ := kv
    cases v with
    | undef =>
      have := ih h
      simpa [copyCatDictEntries] using this
    | addr a =>
      have hCat := copyCat_spec h a
      have ih2 := ih (copyCat h a).1
      have hn1 : h.next ≤ (copyCat h a).1.next := hCat.1.1
      refine ⟨?_, ?_, ?_⟩
      · show PresB h.next h (copyCatDictEntries (copyCat h a).1 rest).1
        exact presB_trans hCat.1 (presB_mono hn1 ih2.1)
      · intro x hx
        simp only [copyCatDictEntries, dictAddrs, List.filterMap_cons] at hx
        simp only [List.mem_cons] at hx
        rcases hx with hx | hx
        · rw [hx]; exact hCat.2.1
        · exact le_trans hn1 (ih2.2.1 x hx)
      · intro n hf
        exact ih2.2.2 n (hCat.2.2 n hf)

theorem copyAudDictEntries_spec (l : List (String × JVal)) : ∀ h : Heap,
    PresB h.next h (copyAudDictEntries h l).1 ∧
    (∀ x ∈ dictAddrs (copyAudDictEntries h l).2, h.next ≤ x) ∧
    (∀ n, FreshInv n h → FreshInv n (copyAudDictEntries h l).1) := by
  induction l with
  | nil =>
    intro h
    exact ⟨presB_refl _ _, by simp [copyAudDictEntries, dictAddrs],
           fun n hf => by simpa [copyAudDictEntries] using hf⟩
  | cons kv rest ih =>
    intro h
    obtain ⟨k, v⟩ := kv
    cases v with
    | undef =>
      have := ih h
      simpa [copyAudDictEntries] using this
    | addr a =>
      have ih2 := ih (allocObj h (copiedAudObj h a)).1
      have hP1 : PresB h.next h (allocObj h (copiedAudObj h a)).1 :=
        presB_alloc (le_refl _) _
      have hn1 : h.next ≤ (allocObj h (copiedAudObj h a)).1.next := by
        rw [alloc_next]; omega
      refine ⟨?_, ?_, ?_⟩
      · show PresB h.next h (copyAudDictEntries (allocObj h (copiedAudObj h a)).1 rest).1
        exact presB_trans hP1 (presB_mono hn1 ih2.1)
      · intro x hx
        simp only [copyAudDictEntries, dictAddrs, List.filterMap_cons] at hx
        simp only [List.mem_cons] at hx
        rcases hx with hx | hx
        · rw [hx, alloc_res]
        · exact le_trans hn1 (ih2.2.1 x hx)
      · intro n hf
        exact ih2.2.2 n (freshInv_alloc hf (by rw [copiedAudObj_addrs]; simp))

theorem deepCopyLHR_spec (h : Heap) (a : Nat) :
    PresB h.next h (deepCopyLHR h a).1 ∧
    h.next ≤ (deepCopyLHR h a).2 ∧
    (∀ n, FreshInv n h → FreshInv n (deepCopyLHR h a).1) := by
  unfold deepCopyLHR
  split
  · next cd ad _ =>
    have h1 := copyCatDictEntries_spec (getDictEntries h cd) h
    set p1 := copyCatDictEntries h (getDictEntries h cd) with hp1
    have h2P : PresB h.next p1.1 (allocObj p1.1 (Obj.dictO p1.2)).1 :=
      presB_mono h1.1.1 (presB_alloc (le_refl _) _)
    set q2 := allocObj p1.1 (Obj.dictO p1.2) with hq2
    have h3 := copyAudDictEntries_spec (getDictEntries q2.1 ad) q2.1
    set p3 := copyAudDictEntries q2.1 (getDictEntries q2.1 ad) with hp3
    have h4P : PresB h.next p3.1 (allocObj p3.1 (Obj.dictO p3.2)).1 := by
      refine presB_mono ?_ (presB_alloc (le_refl _) _)
      have := h1.1.1
      have : h.next ≤ q2.1.next := by rw [hq2, alloc_next]; omega
      have := h3.1.1
      omega
    set q4 := allocObj p3.1 (Obj.dictO p3.2) with hq4
    have hq2n : h.next ≤ q2.1.next := by
      rw [hq2, alloc_next]; have := h1.1.1; omega
    have hq4n : h.next ≤ q4.1.next := by
      rw [hq4, alloc_next]
      have := h3.1.1
      omega
    have hPresAll : PresB h.next h q4.1 :=
      presB_trans h1.1 (presB_trans h2P
        (presB_trans (presB_mono hq2n h3.1) h4P))
    refine ⟨?_, ?_, ?_⟩
    · exact presB_trans hPresAll (presB_mono hq4n (presB_alloc (le_refl _) _))
    · rw [alloc_res]; exact hq4n
    · intro n hf
      have hf1 := h1.2.2 n hf
      have hf2 : FreshInv n q2.1 := by
        rw [hq2]
        refine freshInv_alloc hf1 ?_
        intro b hb
        exact le_trans hf.1 (h1.2.1 b hb)
      have hf3 := h3.2.2 n hf2
      have hf4 : FreshInv n q4.1 := by
        rw [hq4]
        refine freshInv_alloc hf3 ?_
        intro b hb
        exact le_trans hf2.1 (h3.2.1 b hb)
      refine freshInv_alloc hf4 ?_
      intro b hb
      simp only [objAddrs, List.mem_cons, List.mem_singleton] at hb
      rcases hb with hb | hb | hb
      · rw [hb, alloc_res]
        exact hf1.1
      · rw [hb, alloc_res]
        exact hf3.1
      · simp at hb
  · next _ =>
    have h2P : PresB h.next h (allocObj h (Obj.dictO [])).1 := presB_alloc (le_refl _) _
    set q2 := allocObj h (Obj.dictO []) with hq2
    have hq2n : h.next ≤ q2.1.next := by rw [hq2, alloc_next]; omega
    have h4P : PresB h.next q2.1 (allocObj q2.1 (Obj.dictO [])).1 :=
      presB_mono hq2n (presB_alloc (le_refl _) _)
    set q4 := allocObj q2.1 (Obj.dictO []) with hq4
    have hq4n : h.next ≤ q4.1.next := by rw [hq4, alloc_next]; omega
    refine ⟨?_, ?_, ?_⟩
    · exact presB_trans h2P (presB_trans h4P (presB_mono hq4n (presB_alloc (le_refl _) _)))
    · rw [alloc_res]; exact hq4n
    · intro n hf
      have hf2 : FreshInv n q2.1 := by
        rw [hq2]; exact freshInv_alloc hf (by simp [objAddrs, dictAddrs])
      have hf4 : FreshInv n q4.1 := by
        rw [hq4]; exact freshInv_alloc hf2 (by simp [objAddrs, dictAddrs])
      refine freshInv_alloc hf4 ?_
      intro b hb
      simp only [objAddrs, List.mem_cons, List.mem_singleton] at hb
      rcases hb with hb | hb | hb
      · rw [hb, alloc_res]; exact hf.1
      · rw [hb, alloc_res]; exact hf2.1
      · simp at hb


/-! ## Frame and freshness of the heap-level trim -/

theorem tweakDictsStep_spec (h1 : Heap) (c ad : Nat) (perfV : JVal) (n : Nat)
    (hF : FreshInv n h1) (hc : n ≤ c) (had : n ≤ ad)
    (hperf : ∀ pc, perfV = JVal.addr pc → n ≤ pc) :
    (∀ b, b < n → getObj (tweakDictsStep h1 c ad perfV) b = getObj h1 b) ∧
    FreshInv n (tweakDictsStep h1 c ad perfV) ∧
    h1.next ≤ (tweakDictsStep h1 c ad perfV).next := by
  have hperfAddrs : ∀ b ∈ dictAddrs [("performance", perfV)], n ≤ b := by
    intro b hb
    cases perfV with
    | undef => simp [dictAddrs] at hb
    | addr pc =>
      simp [dictAddrs] at hb
      rw [hb]
      exact hperf pc rfl
  set p2 := allocObj h1 (Obj.dictO [("performance", perfV)]) with hp2
  set h3 := updateObj p2.1 c (Obj.lhrO p2.2 ad) with hh3
  have hstep : tweakDictsStep h1 c ad perfV =
      updateObj h3 ad (Obj.dictO ((getDictEntries h3 ad).filter
        (fun kv => kv.1 != "performance-budget"))) := rfl
  have hF2 : FreshInv n p2.1 := by
    rw [hp2]; exact freshInv_alloc hF hperfAddrs
  have hF3 : FreshInv n h3 := by
    rw [hh3]
    refine freshInv_update hF2 ?_
    intro b hb
    simp only [objAddrs, List.mem_cons, List.mem_singleton] at hb
    rcases hb with hb | hb | hb
    · rw [hb, hp2, alloc_res]; exact hF.1
    · rw [hb]; exact had
    · simp at hb
  have hfilterAddrs : ∀ b ∈ dictAddrs ((getDictEntries h3 ad).filter
      (fun kv => kv.1 != "performance-budget")), n ≤ b := by
    intro b hb
    have hb' := dictAddrs_filter_subset _ hb
    unfold getDictEntries at hb'
    cases hgd : getObj h3 ad with
    | none => rw [hgd] at hb'; simp [dictAddrs] at hb'
    | some o =>
      rw [hgd] at hb'
      cases o with
      | lhrO x y => simp [dictAddrs] at hb'
      | dictO l => exact hF3.2 ad _ hgd had b hb'
      | catO i t sc arrA => simp [dictAddrs] at hb'
      | arrO l => simp [dictAddrs] at hb'
      | refO i => simp [dictAddrs] at hb'
      | audO au => simp [dictAddrs] at hb'
  have hF4 : FreshInv n (tweakDictsStep h1 c ad perfV) := by
    rw [hstep]; exact freshInv_update hF3 hfilterAddrs
  have hframe : ∀ b, b < n → getObj (tweakDictsStep h1 c ad perfV) b = getObj h1 b := by
    intro b hb
    rw [hstep]
    rw [getObj_update_ne _ (by omega : b ≠ ad)]
    rw [hh3, getObj_update_ne _ (by omega : b ≠ c)]
    rw [hp2, getObj_alloc_lt _ (by have := hF.1; omega)]
  have hnext : h1.next ≤ (tweakDictsStep h1 c ad perfV).next := by
    rw [hstep, update_next, hh3, update_next, hp2, alloc_next]
    omega
  exact ⟨hframe, hF4, hnext⟩

theorem tweakStep3_spec (h4 : Heap) (c pc : Nat) (n : Nat) (hF : FreshInv n h4)
    (hpc : n ≤ pc) :
    (∀ b, b < n → getObj (tweakStep3 h4 c pc).2 b = getObj h4 b) ∧
    FreshInv n (tweakStep3 h4 c pc).2 ∧
    (∀ c', (tweakStep3 h4 c pc).1 = some c' → c' = c) := by
  unfold tweakStep3
  split
  · next i t s arrA heq4 =>
    have harrA : n ≤ arrA := hF.2 pc _ heq4 hpc arrA (by simp [objAddrs])
    have helemsAll : ∀ b ∈ getArrElems h4 arrA, n ≤ b := by
      intro b hb
      unfold getArrElems at hb
      cases hga : getObj h4 arrA with
      | none => rw [hga] at hb; simp at hb
      | some o =>
        rw [hga] at hb
        cases o with
        | lhrO x y => simp at hb
        | dictO l => simp at hb
        | catO i' t' sc' arrA' => simp at hb
        | arrO l => exact hF.2 arrA _ hga harrA b hb
        | refO i' => simp at hb
        | audO au => simp at hb
    have helems2 : ∀ b ∈ keptElems h4 arrA, n ≤ b := by
      intro b hb
      exact helemsAll b (List.mem_of_mem_filter hb)
    have hF5 : FreshInv n (allocObj h4 (Obj.arrO (keptElems h4 arrA))).1 :=
      freshInv_alloc hF helems2
    refine ⟨?_, ?_, ?_⟩
    · intro b hb
      rw [getObj_update_ne _ (by omega : b ≠ pc)]
      rw [getObj_alloc_lt _ (by have := hF.1; omega)]
    · refine freshInv_update hF5 ?_
      intro b hb
      simp only [objAddrs, List.mem_singleton] at hb
      rw [hb, alloc_res]
      exact hF.1
    · intro c' hcon
      cases hcon
      rfl
  · next hno =>
    exact ⟨fun b hb => rfl, hF, by intro c' hcon; cases hcon⟩

theorem tweakStep2_spec (h1 : Heap) (c : Nat) (n : Nat) (hF : FreshInv n h1) (hc : n ≤ c) :
    (∀ b, b < n → getObj (tweakStep2 h1 c).2 b = getObj h1 b) ∧
    FreshInv n (tweakStep2 h1 c).2 ∧
    (∀ c', (tweakStep2 h1 c).1 = some c' → c' = c) := by
  unfold tweakStep2
  split
  · next cd ad heq =>
    have hcd : n ≤ cd := hF.2 c _ heq hc cd (by simp [objAddrs])
    have had : n ≤ ad := hF.2 c _ heq hc ad (by simp [objAddrs])
    split
    · next hundef =>
      have hmid := tweakDictsStep_spec h1 c ad JVal.undef n hF hc had
        (by intro pc' hcon; cases hcon)
      exact ⟨hmid.1, hmid.2.1, by intro c' hcon; cases hcon⟩
    · next pc hpcv =>
      have hpcn : n ≤ pc := by
        unfold getDictEntries at hpcv
        cases hgd : getObj h1 cd with
        | none => rw [hgd] at hpcv; simp [dictGet, jget] at hpcv
        | some o =>
          rw [hgd] at hpcv
          cases o with
          | lhrO x y => simp [dictGet, jget] at hpcv
          | dictO l => exact hF.2 cd _ hgd hcd pc (dictGet_addr_mem hpcv)
          | catO i t sc arrA => simp [dictGet, jget] at hpcv
          | arrO l => simp [dictGet, jget] at hpcv
          | refO i => simp [dictGet, jget] at hpcv
          | audO au => simp [dictGet, jget] at hpcv
      have hmid := tweakDictsStep_spec h1 c ad (JVal.addr pc) n hF hc had
        (by intro pc' hcon; cases hcon; exact hpcn)
      have hs3 := tweakStep3_spec (tweakDictsStep h1 c ad (JVal.addr pc)) c pc n
        hmid.2.1 hpcn
      refine ⟨?_, hs3.2.1, hs3.2.2⟩
      intro b hb
      rw [hs3.1 b hb]
      exact hmid.1 b hb
  · next hno =>
    exact ⟨fun b hb => rfl, hF, by intro c' hcon; cases hcon⟩

/-! ## Reachability -/

theorem reachLHR_closed (h : Heap) (q : Nat → Prop)
    (hq : ∀ a o, getObj h a = some o → q a → ∀ b ∈ objAddrs o, q b)
    (a : Nat) (ha : q a) : ∀ x ∈ reachLHR h a, q x := by
  intro x hx
  unfold reachLHR at hx
  cases hg : getObj h a with
  | none =>
    rw [hg] at hx
    simp at hx
    rw [hx]; exact ha
  | some o =>
    rw [hg] at hx
    cases o with
    | lhrO cd ad =>
      have hcd : q cd := hq a _ hg ha cd (by simp [objAddrs])
      have had : q ad := hq a _ hg ha ad (by simp [objAddrs])
      have hdict : ∀ d, q d → ∀ y ∈ dictAddrs (getDictEntries h d), q y := by
        intro d hd y hy
        unfold getDictEntries at hy
        cases hgd : getObj h d with
        | none => rw [hgd] at hy; simp [dictAddrs] at hy
        | some o2 =>
          rw [hgd] at hy
          cases o2 with
          | lhrO u v => simp [dictAddrs] at hy
          | dictO l => exact hq d _ hgd hd y hy
          | catO i t sc arrA => simp [dictAddrs] at hy
          | arrO l => simp [dictAddrs] at hy
          | refO i => simp [dictAddrs] at hy
          | audO au => simp [dictAddrs] at hy
      have harr : ∀ y ∈ (dictAddrs (getDictEntries h cd)).flatMap (getCatArr h), q y := by
        intro y hy
        rcases List.mem_flatMap.mp hy with ⟨ca, hca, hyca⟩
        have hqca := hdict cd hcd ca hca
        unfold getCatArr at hyca
        cases hgc : getObj h ca with
        | none => rw [hgc] at hyca; simp at hyca
        | some o3 =>
          rw [hgc] at hyca
          cases o3 with
          | lhrO u v => simp at hyca
          | dictO l => simp at hyca
          | catO i t sc arrA =>
            simp at hyca
            rw [hyca]
            exact hq ca _ hgc hqca arrA (by simp [objAddrs])
          | arrO l => simp at hyca
          | refO i => simp at hyca
          | audO au => simp at hyca
      have href : ∀ y ∈ ((dictAddrs (getDictEntries h cd)).flatMap
          (getCatArr h)).flatMap (getArrElems h), q y := by
        intro y hy
        rcases List.mem_flatMap.mp hy with ⟨ar, har2, hyar⟩
        have hqar := harr ar har2
        unfold getArrElems at hyar
        cases hga : getObj h ar with
        | none => rw [hga] at hyar; simp at hyar
        | some o4 =>
          rw [hga] at hyar
          cases o4 with
          | lhrO u v => simp at hyar
          | dictO l => simp at hyar
          | catO i t sc arrA => simp at hyar
          | arrO l => exact hq ar _ hga hqar y hyar
          | refO i => simp at hyar
          | audO au => simp at hyar
      simp only [List.mem_cons, List.mem_append] at hx
      rcases hx with rfl | rfl | rfl | ⟨⟨hx | hx⟩ | hx⟩ | hx
      · exact ha
      · exact hcd
      · exact had
      · exact hdict cd hcd x hx
      · exact hdict ad had x hx
      · exact harr x hx
      · exact href x hx
    | dictO l => rw [List.mem_singleton] at hx; rw [hx]; exact ha
    | catO i t sc arrA => rw [List.mem_singleton] at hx; rw [hx]; exact ha
    | arrO l => rw [List.mem_singleton] at hx; rw [hx]; exact ha
    | refO i => rw [List.mem_singleton] at hx; rw [hx]; exact ha
    | audO au => rw [List.mem_singleton] at hx; rw [hx]; exact ha

theorem tweakLhrForPsiH_spec (h : Heap) (a : Nat) (hwf : wfHeap h) :
    (∀ b, b < h.next → getObj (tweakLhrForPsiH h a).2 b = getObj h b) ∧
    FreshInv h.next (tweakLhrForPsiH h a).2 ∧
    (∀ c, (tweakLhrForPsiH h a).1 = some c → h.next ≤ c) := by
  have hdc := deepCopyLHR_spec h a
  have hF1 : FreshInv h.next (deepCopyLHR h a).1 := hdc.2.2 h.next (wf_freshInv hwf)
  have hs2 := tweakStep2_spec (deepCopyLHR h a).1 (deepCopyLHR h a).2 h.next hF1 hdc.2.1
  unfold tweakLhrForPsiH
  refine ⟨?_, hs2.2.1, ?_⟩
  · intro b hb
    rw [hs2.1 b hb]
    exact hdc.1.2 b hb
  · intro c hcon
    have hcc := hs2.2.2 c hcon
    rw [hcc]
    exact hdc.2.1

/-! ## Value-level helper lemmas -/

theorem filter_self_idem {α : Type} (p : α → Bool) (l : List α) :
    (l.filter p).filter p = l.filter p := by
  induction l with
  | nil => rfl
  | cons a rest ih =>
    by_cases hp : p a
    · simp [List.filter_cons, hp, ih]
    · simp [List.filter_cons, hp, ih]

/-! ## Claim C2 -/

/-- C2 counterexample: the single-category trim is not total.  On a Result
whose categories mapping has no `performance` key the trim throws a
`TypeError` (the last statement dereferences `undefined`), modelled as `none`,
instead of returning a Result. -/
theorem tweakLhrForPsi_throws_without_performance : tweakLhrForPsi noPerfLhr = none := rfl

/-- C2 (amended): the single-category trim is total only on Results whose
categories mapping has a `performance` key: on those it terminates and
returns a Result whose category set contains exactly the `performance` entry;
on a Result without one it raises a `TypeError` (modelled as `none`) instead
of returning. -/
theorem tweakLhrForPsi_total_on_performance :
    (∀ (lhr : LHR) (perf : Category), jget lhr.categories "performance" = some perf →
      ∃ out, tweakLhrForPsi lhr = some out ∧
        out.categories.map Prod.fst = ["performance"]) ∧
    (∀ lhr : LHR, jget lhr.categories "performance" = none →
      tweakLhrForPsi lhr = none) := by
  constructor
  · intro lhr perf hperf
    unfold tweakLhrForPsi
    rw [hperf]
    exact ⟨_, rfl, rfl⟩
  · intro lhr hnone
    unfold tweakLhrForPsi
    rw [hnone]

/-- Witness for C2's amended theorem at the concrete sample Result. -/
theorem tweakLhrForPsi_total_on_performance_witness :
    ∃ out, tweakLhrForPsi sampleLhr = some out ∧
      out.categories.map Prod.fst = ["performance"] :=
  tweakLhrForPsi_total_on_performance.1 sampleLhr samplePerfCategory rfl

/-! ## Claim C4 -/

/-- C4: for every Result with a `performance` category, the trimmed Result
has no `performance-budget` key in its audits mapping, no audit-reference id
in the performance category ending in `-budget`, and `performance` as the only
key of its categories mapping. -/
theorem tweakLhrForPsi_drops_budgets (lhr : LHR) (perf : Category)
    (hperf : jget lhr.categories "performance" = some perf) :
    ∃ out, tweakLhrForPsi lhr = some out ∧
      jget out.audits "performance-budget" = none ∧
      (∀ c, jget out.categories "performance" = some c →
        ∀ r ∈ c.auditRefs, strEndsWith r.id "-budget" = false) ∧
      out.categories.map Prod.fst = ["performance"] := by
  unfold tweakLhrForPsi
  rw [hperf]
  refine ⟨_, rfl, jget_filter_key_none _ _, ?_, rfl⟩
  intro c hc r hr
  simp [jget] at hc
  rw [← hc] at hr
  simp only at hr
  have := (List.mem_filter.mp hr).2
  simpa using this

/-- Witness for C4 at the concrete sample Result. -/
theorem tweakLhrForPsi_drops_budgets_witness :
    ∃ out, tweakLhrForPsi sampleLhr = some out ∧
      jget out.audits "performance-budget" = none ∧
      (∀ c, jget out.categories "performance" = some c →
        ∀ r ∈ c.auditRefs, strEndsWith r.id "-budget" = false) ∧
      out.categories.map Prod.fst = ["performance"] :=
  tweakLhrForPsi_drops_budgets sampleLhr samplePerfCategory rfl

/-! ## Claim C5 -/

/-- C5: the single-category trim is idempotent: on a Result with a
`performance` category, re-trimming the trimmed Result returns it unchanged
(hence, the same category set and the same ordered audit-reference list). -/
theorem tweakLhrForPsi_idem (lhr out : LHR) (h : tweakLhrForPsi lhr = some out) :
    tweakLhrForPsi out = some out := by
  unfold tweakLhrForPsi at h ⊢
  cases hperf : jget lhr.categories "performance" with
  | none => rw [hperf] at h; cases h
  | some perf =>
    rw [hperf] at h
    cases h
    simp [jget, filter_self_idem]

/-- Witness for C5 at the concrete sample Result. -/
theorem tweakLhrForPsi_idem_witness : tweakLhrForPsi sampleTrimmed = some sampleTrimmed :=
  tweakLhrForPsi_idem sampleLhr sampleTrimmed rfl

/-! ## Claim C7 -/

/-- C7: final-screenshot extraction returns `none` exactly when the
performance category has no audit reference with id `final-screenshot`, or
that reference has no result, or its result's `scoreDisplayMode` is `error`,
or its result's details are missing or not of type `screenshot`; otherwise it
returns the details' `data` value.  In particular it returns `none` for a
`scoreDisplayMode: 'error'` reference and `some "abc"` for a binary reference
with screenshot details `data: 'abc'`. -/
theorem getFinalScreenshot_spec :
    (∀ c : ReportCategory,
      ((getFinalScreenshot c = none) ↔
        (c.auditRefs.find? (fun audit => audit.id == "final-screenshot") = none ∨
         (∃ ref, c.auditRefs.find? (fun audit => audit.id == "final-screenshot") = some ref ∧
           (ref.result = none ∨
            (∃ r, ref.result = some r ∧
              (r.scoreDisplayMode = "error" ∨ r.details = none ∨
               (∃ d, r.details = some d ∧ d.type ≠ "screenshot"))))))) ∧
      (∀ s, (getFinalScreenshot c = some s) ↔
        (∃ ref r d,
          c.auditRefs.find? (fun audit => audit.id == "final-screenshot") = some ref ∧
          ref.result = some r ∧ r.scoreDisplayMode ≠ "error" ∧ r.details = some d ∧
          d.type = "screenshot" ∧ s = d.data))) ∧
    getFinalScreenshot screenshotErrorCategory = none ∧
    getFinalScreenshot screenshotBinaryCategory = some "abc" := by
  refine ⟨?_, rfl, rfl⟩
  intro c
  unfold getFinalScreenshot
  cases hfind : c.auditRefs.find? (fun audit => audit.id == "final-screenshot") with
  | none => simp
  | some ref =>
    cases hres : ref.result with
    | none => simp [hres]
    | some r =>
      cases hdet : r.details with
      | none =>
        by_cases hm : r.scoreDisplayMode = "error" <;> simp [hres, hdet, hm]
      | some d =>
        by_cases hm : r.scoreDisplayMode = "error"
        · simp [hres, hdet, hm]
        · by_cases ht : d.type = "screenshot"
          · constructor
            · simp [hres, hdet, hm, ht]
            · intro s
              simp [hres, hdet, hm, ht]
              tauto
          · simp [hres, hdet, hm, ht]

/-- Witness for C7: instantiating the extraction characterisation at the
concrete binary-mode category. -/
theorem getFinalScreenshot_spec_witness :
    ∃ ref r d,
      screenshotBinaryCategory.auditRefs.find?
        (fun audit => audit.id == "final-screenshot") = some ref ∧
      ref.result = some r ∧ r.scoreDisplayMode ≠ "error" ∧ r.details = some d ∧
      d.type = "screenshot" ∧ "abc" = d.data :=
  ((getFinalScreenshot_spec.1 screenshotBinaryCategory).2 "abc").mp rfl

/-! ## Claim C1 -/

/-- C1 counterexample: the scratch directory is *not* removed when the
audit-only executor throws, nor when it returns `undefined`: the error
propagates out of `generateErrorLHR` with the scratch directory still present
(`tmpExists = true`), because the `fs.rmdirSync` call is only reached on the
successful path. -/
theorem generateErrorLHR_leaves_scratch_on_error :
    (generateErrorLHR (fun _url => Except.error "NO_FCP") fsW).1 =
      Except.error "NO_FCP" ∧
    (generateErrorLHR (fun _url => Except.error "NO_FCP") fsW).2.tmpExists = true ∧
    (generateErrorLHR (fun _url => Except.ok none) fsW).1 =
      Except.error "Failed to run lighthouse on empty artifacts" ∧
    (generateErrorLHR (fun _url => Except.ok none) fsW).2.tmpExists = true :=
  ⟨rfl, rfl, rfl, rfl⟩

/-- C1 (amended): the scratch directory is removed (recursively) before the
builder returns *successfully*; on every error path — the audit-only executor
throwing, the executor returning `undefined`, or the audit overrides throwing
— the error propagates out of the builder with the scratch directory still
present. -/
theorem generateErrorLHR_cleanup_on_success_only
    (runner : String → Except String (Option RunnerResult)) (fs : FsState) :
    (∀ out fs', generateErrorLHR runner fs = (Except.ok out, fs') →
      fs'.tmpExists = false ∧ fs'.tmpArtifacts = none) ∧
    (∀ e fs', generateErrorLHR runner fs = (Except.error e, fs') →
      fs'.tmpExists = true) := by
  unfold generateErrorLHR
  split
  · refine ⟨?_, ?_⟩
    · intro out fs' hcon
      simp at hcon
    · intro e' fs' h2
      simp at h2
      obtain ⟨-, h3⟩ := h2
      subst h3
      rfl
  · refine ⟨?_, ?_⟩
    · intro out fs' hcon
      simp at hcon
    · intro e' fs' h2
      simp at h2
      obtain ⟨-, h3⟩ := h2
      subst h3
      rfl
  · split
    · refine ⟨?_, ?_⟩
      · intro out fs' hcon
        simp at hcon
      · intro e' fs' h2
        simp at h2
        obtain ⟨-, h3⟩ := h2
        subst h3
        rfl
    · refine ⟨?_, ?_⟩
      · intro out fs' h2
        simp at h2
        obtain ⟨-, h3⟩ := h2
        subst h3
        exact ⟨rfl, rfl⟩
      · intro e' fs' hcon
        simp at hcon

/-- Witness for C1's amended theorem: the concrete successful run ends with
the scratch directory removed. -/
theorem generateErrorLHR_cleanup_on_success_only_witness :
    FsState.tmpExists { tmpExists := false, tmpArtifacts := none } = false ∧
    FsState.tmpArtifacts { tmpExists := false, tmpArtifacts := none } = none :=
  (generateErrorLHR_cleanup_on_success_only runnerW fsW).1 errorLhrW
    { tmpExists := false, tmpArtifacts := none } rfl

/-! ## Claim C8 -/

/-- C8: after the synthetic error-path builder completes successfully, the
`offscreen-images` and `apple-touch-icon` audits of the returned Result have
score `1`, scoreDisplayMode `binary`, a cleared `errorMessage` and exactly one
warning, while the `font-display` audit has its warnings replaced by the two
fixed diagnostic strings with its score left untouched (equal to the score the
audit-only executor produced). -/
theorem generateErrorLHR_audit_overrides
    (runner : String → Except String (Option RunnerResult)) (fs fs' : FsState)
    (out : LHR) (r0 : RunnerResult)
    (hrun : runner errorArtifacts.URL.requestedUrl = Except.ok (some r0))
    (hok : generateErrorLHR runner fs = (Except.ok out, fs')) :
    (∃ a, jget out.audits "offscreen-images" = some a ∧ a.score = some 1 ∧
      a.scoreDisplayMode = "binary" ∧ a.errorMessage = none ∧ a.warnings.length = 1) ∧
    (∃ a, jget out.audits "apple-touch-icon" = some a ∧ a.score = some 1 ∧
      a.scoreDisplayMode = "binary" ∧ a.errorMessage = none ∧ a.warnings.length = 1) ∧
    (∃ a a0, jget r0.lhr.audits "font-display" = some a0 ∧
      jget out.audits "font-display" = some a ∧
      a.warnings = [fontDisplayWarning1, fontDisplayWarning2] ∧ a.score = a0.score) := by
  unfold generateErrorLHR at hok
  rw [hrun] at hok
  have hok2 : (match applyErrorTweaks r0.lhr with
      | none => (Except.error "TypeError: cannot set properties of undefined",
          ({ tmpExists := true, tmpArtifacts := some errorArtifacts } : FsState))
      | some errorLhr => (Except.ok errorLhr,
          ({ tmpExists := false, tmpArtifacts := none } : FsState))) =
      (Except.ok out, fs') := hok
  clear hok
  cases htw : applyErrorTweaks r0.lhr with
  | none =>
    rw [htw] at hok2
    simp at hok2
  | some out2 =>
    rw [htw] at hok2
    simp at hok2
    obtain ⟨hout, -⟩ := hok2
    subst hout
    unfold applyErrorTweaks at htw
    cases hfd : jget r0.lhr.audits "font-display" with
    | none => rw [hfd] at htw; simp at htw
    | some fd =>
      rw [hfd] at htw
      simp only [Option.bind_eq_bind, Option.some_bind] at htw
      cases hoi : jget (jset r0.lhr.audits "font-display"
          { fd with warnings := [fontDisplayWarning1, fontDisplayWarning2] })
          "offscreen-images" with
      | none => rw [hoi] at htw; simp at htw
      | some oi =>
        rw [hoi] at htw
        simp only [Option.some_bind] at htw
        cases hati : jget (jset (jset r0.lhr.audits "font-display"
            { fd with warnings := [fontDisplayWarning1, fontDisplayWarning2] })
            "offscreen-images"
            { oi with warnings := [offscreenImagesWarning], errorMessage := none,
                      scoreDisplayMode := "binary", score := some 1 })
            "apple-touch-icon" with
        | none => rw [hati] at htw; simp at htw
        | some ati =>
          rw [hati] at htw
          simp only [Option.some_bind, Option.some.injEq] at htw
          subst htw
          have hde1 : ("apple-touch-icon" : String) ≠ "offscreen-images" := by decide
          have hde2 : ("apple-touch-icon" : String) ≠ "font-display" := by decide
          have hde3 : ("offscreen-images" : String) ≠ "font-display" := by decide
          refine ⟨⟨{ oi with warnings := [offscreenImagesWarning], errorMessage := none, scoreDisplayMode := "binary", score := some 1 }, ?_, rfl, rfl, rfl, rfl⟩, ⟨{ ati with warnings := [appleTouchIconWarning], errorMessage := none, scoreDisplayMode := "binary", score := some 1 }, ?_, rfl, rfl, rfl, rfl⟩, ⟨{ fd with warnings := [fontDisplayWarning1, fontDisplayWarning2] }, fd, rfl, ?_, rfl, rfl⟩⟩
          · show jget (jset (jset (jset r0.lhr.audits "font-display" { fd with warnings := [fontDisplayWarning1, fontDisplayWarning2] }) "offscreen-images" { oi with warnings := [offscreenImagesWarning], errorMessage := none, scoreDisplayMode := "binary", score := some 1 }) "apple-touch-icon" { ati with warnings := [appleTouchIconWarning], errorMessage := none, scoreDisplayMode := "binary", score := some 1 }) "offscreen-images" = some { oi with warnings := [offscreenImagesWarning], errorMessage := none, scoreDisplayMode := "binary", score := some 1 }
            rw [jget_jset_ne _ _ hde1.symm, jget_jset_self, hoi]
            rfl
          · show jget (jset (jset (jset r0.lhr.audits "font-display" { fd with warnings := [fontDisplayWarning1, fontDisplayWarning2] }) "offscreen-images" { oi with warnings := [offscreenImagesWarning], errorMessage := none, scoreDisplayMode := "binary", score := some 1 }) "apple-touch-icon" { ati with warnings := [appleTouchIconWarning], errorMessage := none, scoreDisplayMode := "binary", score := some 1 }) "apple-touch-icon" = some { ati with warnings := [appleTouchIconWarning], errorMessage := none, scoreDisplayMode := "binary", score := some 1 }
            rw [jget_jset_self, hati]
            rfl
          · show jget (jset (jset (jset r0.lhr.audits "font-display" { fd with warnings := [fontDisplayWarning1, fontDisplayWarning2] }) "offscreen-images" { oi with warnings := [offscreenImagesWarning], errorMessage := none, scoreDisplayMode := "binary", score := some 1 }) "apple-touch-icon" { ati with warnings := [appleTouchIconWarning], errorMessage := none, scoreDisplayMode := "binary", score := some 1 }) "font-display" = some { fd with warnings := [fontDisplayWarning1, fontDisplayWarning2] }
            rw [jget_jset_ne _ _ hde2.symm, jget_jset_ne _ _ hde3.symm, jget_jset_self, hfd]
            rfl

/-- Witness for C8 at the concrete error-path run. -/
theorem generateErrorLHR_audit_overrides_witness :
    (∃ a, jget errorLhrW.audits "offscreen-images" = some a ∧ a.score = some 1 ∧
      a.scoreDisplayMode = "binary" ∧ a.errorMessage = none ∧ a.warnings.length = 1) ∧
    (∃ a, jget errorLhrW.audits "apple-touch-icon" = some a ∧ a.score = some 1 ∧
      a.scoreDisplayMode = "binary" ∧ a.errorMessage = none ∧ a.warnings.length = 1) ∧
    (∃ a a0, jget (RunnerResult.mk errRunLhr).lhr.audits "font-display" = some a0 ∧
      jget errorLhrW.audits "font-display" = some a ∧
      a.warnings = [fontDisplayWarning1, fontDisplayWarning2] ∧ a.score = a0.score) :=
  generateErrorLHR_audit_overrides runnerW fsW { tmpExists := false, tmpArtifacts := none }
    errorLhrW { lhr := errRunLhr } rfl rfl

/-! ## Orchestrator inversion -/

theorem buildSampleReports_ok_inv (gen : LHR → String) (assets : Assets)
    (swap : String → LHR → LHR) (runner : String → Except String (Option RunnerResult))
    (dist : String) (lhr0 : LHR) (fs0 : FsState)
    (out : List (String × String)) (fs' : FsState)
    (hok : buildSampleReports gen assets swap runner dist lhr0 fs0 = (Except.ok out, fs')) :
    ∃ errorLhr singleCategory psiHtml,
      generateErrorLHR runner fs0 = (Except.ok errorLhr, fs') ∧
      tweakLhrForPsi (addPluginCategory lhr0) = some singleCategory ∧
      generatePsiReportHtml assets (addPluginCategory lhr0) = some psiHtml ∧
      out = ([("english", addPluginCategory lhr0),
              ("espanol", swap "es" (addPluginCategory lhr0)),
              ("ɑrabic", swap "ar" (addPluginCategory lhr0)),
              ("xl-accented", swap "en-XL" (addPluginCategory lhr0)),
              ("error", errorLhr),
              ("single-category", singleCategory)].flatMap (fun nl =>
        flavors.map (fun variant =>
          (dist ++ "/" ++ variant ++ nl.1 ++ "/index.html",
           renderVariantHtml gen psiHtml nl.2 variant)))) := by
  unfold buildSampleReports at hok
  simp only [] at hok
  split at hok
  · simp at hok
  · next errorLhr fs1 heq =>
    split at hok
    · simp at hok
    · next singleCategory htw =>
      split at hok
      · simp at hok
      · next psiHtml hpsi =>
        simp only [Prod.mk.injEq, Except.ok.injEq] at hok
        obtain ⟨hout, hfs⟩ := hok
        subst hfs
        exact ⟨errorLhr, singleCategory, psiHtml, heq, htw, hpsi, hout.symm⟩

/-! ## Claim C3 -/

/-- C3 (amended): for every named input Result, the psi-embed flavor's markup
is derived from the module-level *base* Result (after the plugin category has
been added), not from that name's Result: every `⌣.psi.` file of the run (the
positions `j` with `j % 3 = 2` in write order) holds the markup obtained by
trimming the base Result, serializing it to the sanitized embeddable string
and substituting it plus the script and style payloads into the fixed host
template at the three named placeholder tokens.  The right-hand side mentions
neither the generic renderer `gen` nor the named Result, which formalizes
"without calling the generic renderer" and refutes per-name derivation. -/
theorem psi_flavor_markup_from_base (gen : LHR → String) (assets : Assets)
    (swap : String → LHR → LHR) (runner : String → Except String (Option RunnerResult))
    (dist : String) (lhr0 : LHR) (fs0 : FsState) (out : List (String × String))
    (fs' : FsState) (j : Nat) (p html : String)
    (hok : buildSampleReports gen assets swap runner dist lhr0 fs0 = (Except.ok out, fs'))
    (hj : out.get? j = some (p, html)) (hmod : j % 3 = 2) :
    ∃ trimmed, tweakLhrForPsi (addPluginCategory lhr0) = some trimmed ∧
      html = replaceStrings assets.psiTemplate
        [("%%LIGHTHOUSE_JSON%%", sanitizeJson trimmed),
         ("%%LIGHTHOUSE_JAVASCRIPT%%",
           "\n" ++ assets.psiJs ++ ";\n" ++ assets.fauxPsiJs ++ ";\n  "),
         ("/*%%LIGHTHOUSE_CSS%%*/", assets.reportCss)] := by
  obtain ⟨errorLhr, singleCategory, psiHtml, -, htw, hpsi, hout⟩ :=
    buildSampleReports_ok_inv _ _ _ _ _ _ _ _ _ hok
  have hpsi2 : psiHtml = replaceStrings assets.psiTemplate
      [("%%LIGHTHOUSE_JSON%%", sanitizeJson singleCategory),
       ("%%LIGHTHOUSE_JAVASCRIPT%%",
         "\n" ++ assets.psiJs ++ ";\n" ++ assets.fauxPsiJs ++ ";\n  "),
       ("/*%%LIGHTHOUSE_CSS%%*/", assets.reportCss)] := by
    unfold generatePsiReportHtml at hpsi
    rw [htw] at hpsi
    simpa using hpsi.symm
  subst hout
  refine ⟨singleCategory, htw, ?_⟩
  rw [← hpsi2]
  simp only [flavors, List.flatMap_cons, List.flatMap_nil, List.map_cons, List.map_nil,
    List.append_nil, List.cons_append, List.nil_append] at hj
  have hjlt : j < 18 := by
    by_contra hge
    rw [List.get?_eq_none.mpr (by simp; omega)] at hj
    cases hj
  have hcases : j = 2 ∨ j = 5 ∨ j = 8 ∨ j = 11 ∨ j = 14 ∨ j = 17 := by omega
  have hrv : ∀ l : LHR, renderVariantHtml gen psiHtml l "⌣.psi." = psiHtml := fun _ => rfl
  rcases hcases with rfl | rfl | rfl | rfl | rfl | rfl <;>
    simp only [List.get?_cons_succ, List.get?_cons_zero, Option.some.injEq,
      Prod.mk.injEq] at hj <;>
    rw [← hj.2, hrv]

/-- Witness for C3's amended theorem at the concrete run (the psi-flavor
entry of the first name). -/
theorem psi_flavor_markup_from_base_witness :
    ∃ trimmed, tweakLhrForPsi (addPluginCategory sampleLhr) = some trimmed ∧
      ((outW.get? 2).getD ("", "")).2 = replaceStrings assetsW.psiTemplate
        [("%%LIGHTHOUSE_JSON%%", sanitizeJson trimmed),
         ("%%LIGHTHOUSE_JAVASCRIPT%%",
           "\n" ++ assetsW.psiJs ++ ";\n" ++ assetsW.fauxPsiJs ++ ";\n  "),
         ("/*%%LIGHTHOUSE_CSS%%*/", assetsW.reportCss)] :=
  psi_flavor_markup_from_base genW assetsW swapW runnerW "dist/now" sampleLhr fsW outW
    { tmpExists := false, tmpArtifacts := none } 2 ((outW.get? 2).getD ("", "")).1
    ((outW.get? 2).getD ("", "")).2 rfl rfl rfl

/-- C3 counterexample: in the concrete run, the psi-flavor file written for
the `error` Result (write position 14) holds the markup derived from the
*base* Result, and that markup is different from the markup the claim
requires, namely the one derived by trimming and serializing the `error`
Result itself. -/
theorem psi_flavor_not_from_named_result :
    buildW.1 = Except.ok outW ∧
    outW.get? 14 = some ("dist/now/⌣.psi.error/index.html", psiHtmlW) ∧
    (generateErrorLHR runnerW fsW).1 = Except.ok errorLhrW ∧
    (tweakLhrForPsi errorLhrW).map (fun trimmed =>
      replaceStrings assetsW.psiTemplate
        [("%%LIGHTHOUSE_JSON%%", sanitizeJson trimmed),
         ("%%LIGHTHOUSE_JAVASCRIPT%%",
           "\n" ++ assetsW.psiJs ++ ";\n" ++ assetsW.fauxPsiJs ++ ";\n  "),
         ("/*%%LIGHTHOUSE_CSS%%*/", assetsW.reportCss)]) ≠ some psiHtmlW :=
  ⟨rfl, rfl, rfl, by decide⟩

/-! ## Claim C9 -/

theorem strData_append (a b : String) : (a ++ b).data = a.data ++ b.data := by
  cases a; cases b; rfl

theorem strAppend_assoc (a b c : String) : a ++ b ++ c = a ++ (b ++ c) := by
  cases a with | mk da =>
  cases b with | mk db =>
  cases c with | mk dc =>
  show String.mk ((da ++ db) ++ dc) = String.mk (da ++ (db ++ dc))
  rw [List.append_assoc]

theorem strAppend_left_cancel {a x y : String} (h : a ++ x = a ++ y) : x = y := by
  have hd : a.data ++ x.data = a.data ++ y.data := by
    rw [← strData_append, ← strData_append, h]
  have h2 := List.append_cancel_left hd
  cases x with | mk dx =>
  cases y with | mk dy =>
  exact congrArg String.mk h2

/-- C9: a complete orchestrator run writes exactly 18 files, one per
(variant-name, flavor) pair, each at the deterministic path
`<dist>/<flavor-prefix><variant-name>/index.html`, where the flavor prefix is
the empty string for the plain flavor and the short fixed tags `⌣.cdt.` and
`⌣.psi.` for the devtools and psi flavors; the 18 paths are pairwise
distinct. -/
theorem orchestrator_writes_18_files (gen : LHR → String) (assets : Assets)
    (swap : String → LHR → LHR) (runner : String → Except String (Option RunnerResult))
    (dist : String) (lhr0 : LHR) (fs0 : FsState) (out : List (String × String))
    (fs' : FsState)
    (hok : buildSampleReports gen assets swap runner dist lhr0 fs0 = (Except.ok out, fs')) :
    out.length = 18 ∧
    out.map Prod.fst = expectedPaths dist ∧
    (out.map Prod.fst).Nodup := by
  obtain ⟨errorLhr, singleCategory, psiHtml, -, -, -, hout⟩ :=
    buildSampleReports_ok_inv _ _ _ _ _ _ _ _ _ hok
  subst hout
  have hmap : (([("english", addPluginCategory lhr0),
      ("espanol", swap "es" (addPluginCategory lhr0)),
      ("ɑrabic", swap "ar" (addPluginCategory lhr0)),
      ("xl-accented", swap "en-XL" (addPluginCategory lhr0)),
      ("error", errorLhr),
      ("single-category", singleCategory)].flatMap (fun nl =>
        flavors.map (fun variant =>
          (dist ++ "/" ++ variant ++ nl.1 ++ "/index.html",
           renderVariantHtml gen psiHtml nl.2 variant)))).map Prod.fst) =
      expectedPaths dist := by
    simp [expectedPaths, sampleFileNames, flavors]
  refine ⟨by simp [flavors], hmap, ?_⟩
  rw [hmap]
  have heq : expectedPaths dist = expectedRelPaths.map (fun r => dist ++ r) := by
    simp [expectedPaths, expectedRelPaths, sampleFileNames, flavors, strAppend_assoc]
  rw [heq]
  refine List.Nodup.map ?_ (by decide)
  intro x y hxy
  exact strAppend_left_cancel hxy

/-- Witness for C9 at the concrete run. -/
theorem orchestrator_writes_18_files_witness :
    outW.length = 18 ∧ outW.map Prod.fst = expectedPaths "dist/now" ∧
    (outW.map Prod.fst).Nodup :=
  orchestrator_writes_18_files genW assetsW swapW runnerW "dist/now" sampleLhr fsW outW
    { tmpExists := false, tmpArtifacts := none } rfl

/-! ## Claim C10 -/

/-- C10: before any variant is produced, the orchestrator mutates the base
Result in place: `addPluginCategory` adds the `lighthouse-plugin-someplugin`
category (title `Plugin`, score `0.5`, empty `auditRefs`) to the input's
categories mapping.  On the heap, the fresh category object is written into
the *input* Result's own categories dictionary; at value level, the mutated
Result carries the plugin entry and differs from the caller's original
whenever the key was absent; downstream, the plain rendering of `english` and
the locale expansion of `espanol` both receive the mutated Result. -/
theorem orchestrator_mutates_base_result :
    (∀ (h : Heap) (a cd ad : Nat) (entries : List (String × JVal)),
      wfHeap h → getObj h a = some (Obj.lhrO cd ad) →
      getObj h cd = some (Obj.dictO entries) →
      getObj (addPluginCategoryH h a) cd =
        some (Obj.dictO (jsetOrAppend entries "lighthouse-plugin-someplugin"
          (JVal.addr (h.next + 1)))) ∧
      getObj (addPluginCategoryH h a) (h.next + 1) =
        some (Obj.catO "lighthouse-plugin-someplugin" "Plugin" (some (1/2)) h.next) ∧
      getObj (addPluginCategoryH h a) h.next = some (Obj.arrO [])) ∧
    (∀ lhr0 : LHR,
      jget (addPluginCategory lhr0).categories "lighthouse-plugin-someplugin" =
        some pluginCategory ∧
      (jget lhr0.categories "lighthouse-plugin-someplugin" = none →
        addPluginCategory lhr0 ≠ lhr0)) ∧
    (∀ (gen : LHR → String) (assets : Assets) (swap : String → LHR → LHR)
       (runner : String → Except String (Option RunnerResult)) (dist : String)
       (lhr0 : LHR) (fs0 : FsState) (out : List (String × String)) (fs' : FsState),
      buildSampleReports gen assets swap runner dist lhr0 fs0 = (Except.ok out, fs') →
      out.get? 0 = some (dist ++ "/" ++ "" ++ "english" ++ "/index.html",
        gen (addPluginCategory lhr0)) ∧
      out.get? 3 = some (dist ++ "/" ++ "" ++ "espanol" ++ "/index.html",
        gen (swap "es" (addPluginCategory lhr0)))) := by
  refine ⟨?_, ?_, ?_⟩
  · intro h a cd ad entries hwf hlhr hcd
    have hcdlt : cd < h.next := (wf_getObj_lt hwf hlhr).2 cd (by simp [objAddrs])
    unfold addPluginCategoryH
    rw [hlhr]
    simp only []
    have hg1 : getObj (allocObj h (Obj.arrO [])).1 cd = some (Obj.dictO entries) := by
      rw [getObj_alloc_lt _ hcdlt]; exact hcd
    have hg2 : getObj (allocObj (allocObj h (Obj.arrO [])).1
        (Obj.catO "lighthouse-plugin-someplugin" "Plugin" (some (1/2))
          (allocObj h (Obj.arrO [])).2)).1 cd = some (Obj.dictO entries) := by
      rw [getObj_alloc_lt _ (by rw [alloc_next]; omega)]
      exact hg1
    have hde : getDictEntries (allocObj (allocObj h (Obj.arrO [])).1
        (Obj.catO "lighthouse-plugin-someplugin" "Plugin" (some (1/2))
          (allocObj h (Obj.arrO [])).2)).1 cd = entries := by
      unfold getDictEntries
      rw [hg2]
    rw [hde]
    refine ⟨getObj_update_self _ hg2, ?_, ?_⟩
    · rw [getObj_update_ne _ (by omega : h.next + 1 ≠ cd)]
      exact getObj_alloc_self _ _
    · rw [getObj_update_ne _ (by omega : h.next ≠ cd)]
      rw [getObj_alloc_lt _ (by rw [alloc_next]; omega)]
      exact getObj_alloc_self _ _
  · intro lhr0
    constructor
    · exact jget_jsetOrAppend_self _ _ _
    · intro hnone heq
      have hcontr : jget (addPluginCategory lhr0).categories
          "lighthouse-plugin-someplugin" = none := by
        rw [heq]; exact hnone
      rw [show (addPluginCategory lhr0).categories =
        jsetOrAppend lhr0.categories "lighthouse-plugin-someplugin" pluginCategory
        from rfl] at hcontr
      rw [jget_jsetOrAppend_self] at hcontr
      cases hcontr
  · intro gen assets swap runner dist lhr0 fs0 out fs' hok
    obtain ⟨errorLhr, singleCategory, psiHtml, -, -, -, hout⟩ :=
      buildSampleReports_ok_inv _ _ _ _ _ _ _ _ _ hok
    subst hout
    exact ⟨rfl, rfl⟩

/-- Witness for C10: the heap mutation at the concrete sample heap, the
value-level plugin entry, and the first written file of the concrete run. -/
theorem orchestrator_mutates_base_result_witness :
    (getObj (addPluginCategoryH sampleHeap 0) 1 =
      some (Obj.dictO (jsetOrAppend [("performance", JVal.addr 3), ("seo", JVal.addr 6)]
        "lighthouse-plugin-someplugin" (JVal.addr 12))) ∧
     getObj (addPluginCategoryH sampleHeap 0) 12 =
      some (Obj.catO "lighthouse-plugin-someplugin" "Plugin" (some (1/2)) 11) ∧
     getObj (addPluginCategoryH sampleHeap 0) 11 = some (Obj.arrO [])) ∧
    jget (addPluginCategory sampleLhr).categories "lighthouse-plugin-someplugin" =
      some pluginCategory ∧
    outW.get? 0 = some ("dist/now" ++ "/" ++ "" ++ "english" ++ "/index.html",
      genW (addPluginCategory sampleLhr)) :=
  ⟨orchestrator_mutates_base_result.1 sampleHeap 0 1 2 _ (by unfold wfHeap; decide) rfl rfl,
   (orchestrator_mutates_base_result.2.1 sampleLhr).1,
   (orchestrator_mutates_base_result.2.2 genW assetsW swapW runnerW "dist/now" sampleLhr
     fsW outW { tmpExists := false, tmpArtifacts := none } rfl).1⟩

/-! ## Claim C6 -/

/-- C6: the trim does not mutate its input and returns an independent deep
copy: on the heap model, running `tweakLhrForPsiH` leaves every pre-existing
object unchanged (in particular the input Result's categories dictionary,
audits dictionary and the performance category's audit-reference array), and
when a clone is returned, no address reachable from the clone is reachable
from the input Result — the two share no references. -/
theorem tweakLhrForPsi_no_mutation (h : Heap) (a : Nat) (hwf : wfHeap h)
    (ha : a < h.next) :
    (∀ b, b < h.next → getObj (tweakLhrForPsiH h a).2 b = getObj h b) ∧
    (∀ c, (tweakLhrForPsiH h a).1 = some c →
      ∀ x ∈ reachLHR (tweakLhrForPsiH h a).2 c,
        x ∉ reachLHR (tweakLhrForPsiH h a).2 a) := by
  have hspec := tweakLhrForPsiH_spec h a hwf
  refine ⟨hspec.1, ?_⟩
  intro c hc x hxc hxa
  have hge : h.next ≤ x :=
    reachLHR_closed _ (fun y => h.next ≤ y)
      (fun a' o hg ha' b hb => hspec.2.1.2 a' o hg ha' b hb) c (hspec.2.2 c hc) x hxc
  have hlow : LowInv h.next (tweakLhrForPsiH h a).2 :=
    lowInv_of_frame (wf_lowInv hwf) hspec.1
  have hlt : x < h.next :=
    reachLHR_closed _ (fun y => y < h.next)
      (fun a' o hg ha' b hb => hlow a' o hg ha' b hb) a ha x hxa
  omega

/-- Witness for C6 at the concrete sample heap. -/
theorem tweakLhrForPsi_no_mutation_witness :
    (∀ b, b < sampleHeap.next →
      getObj (tweakLhrForPsiH sampleHeap 0).2 b = getObj sampleHeap b) ∧
    (∀ c, (tweakLhrForPsiH sampleHeap 0).1 = some c →
      ∀ x ∈ reachLHR (tweakLhrForPsiH sampleHeap 0).2 c,
        x ∉ reachLHR (tweakLhrForPsiH sampleHeap 0).2 0) :=
  tweakLhrForPsi_no_mutation sampleHeap 0 (by unfold wfHeap; decide) (by decide)
